import Mathlib

/-!
# Verification of the FragToPre cross-frame linking core

Shallow embedding of the linking / precursor-search / point-cloud core of the
FragToPre repository (`baseline.py`, `mass_spec_point_cloud.py`).

Conventions of the embedding:
* Python floats are modelled as `ℚ`; charges as `ℤ`.
* A detected feature is a `Point` (mz, rt, intensity, charge), matching the
  4-element lists built by the point-extraction loops of `link_between_frames`
  and `search_through_all_frames`.
* Mutation of the shared per-frame working lists is modelled by explicit state
  passing; a Python `IndexError` (out-of-range `list.pop`) is modelled by
  `Option` (`none` = the call raises), and the potentially non-terminating
  driver loop is run on a fuel bound, with fuel exhaustion also mapped to
  `none` (the Python loop would run forever in exactly those states).
* `numpy` truth-value errors (`ValueError`) in the point cloud are modelled by
  `Except Unit`.
-/

namespace FragToPre

/-- A detected feature centroid: the 4-element list
`[feature.getMZ(), feature.getRT(), feature.getIntensity(), feature.getCharge()]`
built at `baseline.py` lines 196-204 and 251-259. -/
structure Point where
  mz : ℚ
  rt : ℚ
  intensity : ℚ
  charge : ℤ
  deriving DecidableEq, Inhabited, Repr

/-- A species record `[[rt coordinates], [points]]` as built by `link_to_peak`
(`possible_species[species_counter] = [[rt_idx_to_rt[rt_idx]], [peak]]`). -/
abbrev Species := List ℚ × List Point

/-- The point-extraction loop (`baseline.py` lines 193-207 and 248-261): each
feature is turned into its 4-field point.  On the embedded `Point` type this
rebuilds the same structure. -/
def pointExtraction (feature_maps : List (List Point)) : List (List Point) :=
  feature_maps.map (fun fr =>
    fr.map (fun feature => Point.mk feature.mz feature.rt feature.intensity feature.charge))

/-! ## Local-maxima selector (`find_local_maxima_indices`, lines 82-105) -/

/-- Accumulator loop of Python's `max(enumerate(arr), key=lambda p: p[1][2])`:
keeps the first index attaining the maximal intensity (Python's `max` only
replaces the current best on a strictly greater key). -/
def maxIntensityAux : ℕ → ℕ × ℚ → List Point → ℕ × ℚ
  | _, best, [] => best
  | i, (bi, bv), p :: rest =>
    if bv < p.intensity then maxIntensityAux (i + 1) (i, p.intensity) rest
    else maxIntensityAux (i + 1) (bi, bv) rest

/-- `(pt_idx, max_val[2])` for one frame: the in-frame index of its most intense
point and that intensity, or `(0, 0)` for an empty frame
(`baseline.py` lines 86-94). -/
def maxIntensityEntry : List Point → ℕ × ℚ
  | [] => (0, 0)
  | p :: rest => maxIntensityAux 1 (0, p.intensity) rest

/-- The `max_ints` array (per-frame maximal intensity, 0 for empty frames). -/
def maxInts (frames : List (List Point)) : List ℚ :=
  frames.map (fun f => (maxIntensityEntry f).2)

/-- The `max_int_pt_idxs` array (in-frame index of the per-frame maximum). -/
def maxIntPtIdxs (frames : List (List Point)) : List ℕ :=
  frames.map (fun f => (maxIntensityEntry f).1)

/-- `scipy.signal.argrelextrema(v, np.greater)` with its default
`order=1, mode='clip'`: indices whose value is strictly greater than both
clipped neighbours.  Nat subtraction clips the left neighbour at `0` and
`min (i+1) (len-1)` clips the right neighbour, exactly as `np.take(..., mode='clip')`. -/
def argrelextremaGreater (v : List ℚ) : List ℕ :=
  (List.range v.length).filter (fun i =>
    decide (v.getD (i - 1) 0 < v.getD i 0) &&
    decide (v.getD (min (i + 1) (v.length - 1)) 0 < v.getD i 0))

/-- `find_local_maxima_indices` (lines 82-105): the list of
`(frame_index, in-frame point index)` pairs produced by
`zip(*max_int_idxs, max_int_pt_idxs[max_int_idxs])`. -/
def findLocalMaximaIndices (frames : List (List Point)) : List (ℕ × ℕ) :=
  (argrelextremaGreater (maxInts frames)).map (fun i => (i, (maxIntPtIdxs frames).getD i 0))

/-! ## Frame-chain linker (`link_to_peak`, lines 107-186) -/

/-- First index of the scan `for i in range(len(...))` that satisfies the
qualifying condition (the inner loop breaks at the first match). -/
def firstIdx? (p : α → Bool) : List α → Option ℕ
  | [] => none
  | a :: as => if p a then some 0 else (firstIdx? p as).map (· + 1)

/-- The qualifying condition of lines 133-136 / 167-170: mz and rt within
`epsilon` of the seed `peak`, intensity at most the seed's, equal charge, and
intensity strictly below `prev_val`.  (`prev_val` is re-initialised to
`peak[2]` at the top of every `while` iteration — lines 127 and 161 — so every
test is made with `prev_val = peak.intensity`.) -/
def qualifies (eps : ℚ) (peak : Point) (prev_val : ℚ) (q : Point) : Bool :=
  decide (peak.mz - eps ≤ q.mz) && decide (q.mz ≤ peak.mz + eps) &&
  decide (peak.rt - eps ≤ q.rt) && decide (q.rt ≤ peak.rt + eps) &&
  decide (q.intensity ≤ peak.intensity) && decide (q.charge = peak.charge) &&
  decide (q.intensity < prev_val)

/-- The mutable state visible to one `link_to_peak` call: the shared per-frame
working lists, the `rt_idx_to_num_points_left` table, and the species under
construction (its two parallel lists). -/
structure WalkSt where
  frames : List (List Point)
  numLeft : List ℕ
  rts : List ℚ
  pts : List Point
  deriving DecidableEq, Repr

/-- Result of one iteration of a walk `while` loop body: either the loop
`break`s, or it continues with an updated skip counter. -/
inductive WalkStepRes where
  | stop (st : WalkSt)
  | cont (st : WalkSt) (skipped : ℕ)
  deriving DecidableEq, Repr

/-- One iteration of the backward/forward walk loop body (lines 124-152 resp.
158-186) at frame `walkIdx` with the current `skipped` count:
* a completely empty frame breaks the loop immediately;
* the first qualifying point is popped, appended to the species, and the walk
  continues with `skipped` unchanged (the code never resets it);
* otherwise `skipped` is incremented and the loop breaks when it exceeds 2. -/
def walkStep (eps : ℚ) (rtMap : ℕ → ℚ) (peak : Point) (walkIdx skipped : ℕ)
    (st : WalkSt) : WalkStepRes :=
  let fr := st.frames.getD walkIdx []
  if fr.isEmpty then .stop st
  else
    match firstIdx? (fun q => qualifies eps peak peak.intensity q) fr with
    | some i =>
      .cont ⟨st.frames.set walkIdx (fr.eraseIdx i),
             st.numLeft.set walkIdx (st.numLeft.getD walkIdx 0 - 1),
             st.rts ++ [rtMap walkIdx],
             st.pts ++ [fr.getD i default]⟩ skipped
    | none =>
      if skipped + 1 > 2 then .stop st else .cont st (skipped + 1)

/-- The backward walk (lines 121-152): `walk_idx` starts at `rt_idx - 1` and
decreases; the loop exits when `walk_idx < 0`, modelled by the structural
descent to `0`. -/
def walkBack (eps : ℚ) (rtMap : ℕ → ℚ) (peak : Point) :
    ℕ → ℕ → WalkSt → WalkSt
  | 0, skipped, st =>
    match walkStep eps rtMap peak 0 skipped st with
    | .stop st' => st'
    | .cont st' _ => st'
  | w + 1, skipped, st =>
    match walkStep eps rtMap peak (w + 1) skipped st with
    | .stop st' => st'
    | .cont st' sk => walkBack eps rtMap peak w sk st'

/-- The forward walk (lines 155-186): `walk_idx` starts at `rt_idx + 1` and
increases while `walk_idx < len(rt_idx_to_points)`; the number of remaining
loop iterations `len - walk_idx` is passed as structural fuel (the length of
the frame list never changes, `List.set` preserves it). -/
def walkForward (eps : ℚ) (rtMap : ℕ → ℚ) (peak : Point) :
    ℕ → ℕ → ℕ → WalkSt → WalkSt
  | 0, _, _, st => st
  | fuel + 1, walkIdx, skipped, st =>
    match walkStep eps rtMap peak walkIdx skipped st with
    | .stop st' => st'
    | .cont st' sk => walkForward eps rtMap peak fuel (walkIdx + 1) sk st'

/-- `link_to_peak` (lines 107-186).  Returns `none` when the Python call would
raise `IndexError` (the seed `pop(pt_idx)` with `pt_idx` out of range); on a
normal return it yields the updated frame lists, the updated
`rt_idx_to_num_points_left`, and the species written to
`possible_species[species_counter]` (`none` when the guard
`rt_idx_to_num_points_left[rt_idx] > 0` fails and no species entry is made). -/
def linkToPeak (rt_idx pt_idx : ℕ) (frames : List (List Point)) (numLeft : List ℕ)
    (rtMap : ℕ → ℚ) (eps : ℚ) :
    Option (List (List Point) × List ℕ × Option Species) :=
  if 0 < numLeft.getD rt_idx 0 then
    match (frames.getD rt_idx [])[pt_idx]? with
    | none => none
    | some peak =>
      let st0 : WalkSt :=
        ⟨frames.set rt_idx ((frames.getD rt_idx []).eraseIdx pt_idx),
         numLeft.set rt_idx (numLeft.getD rt_idx 0 - 1),
         [rtMap rt_idx], [peak]⟩
      let st1 := if rt_idx = 0 then st0 else walkBack eps rtMap peak (rt_idx - 1) 0 st0
      let st2 := walkForward eps rtMap peak (st1.frames.length - (rt_idx + 1)) (rt_idx + 1) 0 st1
      some (st2.frames, st2.numLeft, some (st2.rts, st2.pts))
  else some (frames, numLeft, none)

/-! ## Cross-frame linking driver (`link_between_frames`, lines 188-242) -/

/-- The driver's mutable state: the shared frame lists, the
`rt_idx_to_num_points_left` table, the `possible_species` dictionary (an
association list — keys are only ever fresh, increasing counters) and the
`species_counter`. -/
structure DriverSt where
  frames : List (List Point)
  numLeft : List ℕ
  dict : List (ℕ × Species)
  counter : ℕ
  deriving DecidableEq, Repr

/-- The `for rt_idx, pt_idx in local_maxima` loop (lines 217-228): each local
maximum is linked with a fresh species counter; the counter advances even when
the guard in `link_to_peak` suppressed the species entry. -/
def chainPass (rtMap : ℕ → ℚ) (eps : ℚ) :
    List (ℕ × ℕ) → DriverSt → Option DriverSt
  | [], st => some st
  | (rt_idx, pt_idx) :: rest, st =>
    match linkToPeak rt_idx pt_idx st.frames st.numLeft rtMap eps with
    | none => none
    | some (fr', nl', osp) =>
      let dict' := match osp with
        | some sp => st.dict ++ [(st.counter, sp)]
        | none => st.dict
      chainPass rtMap eps rest ⟨fr', nl', dict', st.counter + 1⟩

/-- The `while num_unclassified > 0` loop body (lines 211-228):
`num_unclassified` is computed once before the loop and never updated, so once
entered the loop can only exit through the `if not local_maxima: break`.  A
pass that removes no point leaves the frames unchanged, hence recomputes the
same local maxima forever: the Python loop diverges, modelled by fuel
exhaustion returning `none`. -/
def chainLoop (rtMap : ℕ → ℚ) (eps : ℚ) : ℕ → DriverSt → Option DriverSt
  | 0, _ => none
  | fuel + 1, st =>
    let local_maxima := findLocalMaximaIndices st.frames
    if local_maxima.isEmpty then some st
    else
      match chainPass rtMap eps local_maxima st with
      | none => none
      | some st' => chainLoop rtMap eps fuel st'

/-- Set-up and main loop of `link_between_frames` (lines 188-228): point
extraction, the `rt_idx_to_num_points_left` table, the one-shot
`num_unclassified` count, and the chaining loop.  Every terminating Python
execution removes at least one point per iteration, so `total points + 1`
fuel is only exhausted in the diverging states described at `chainLoop`. -/
def chainPhase (feature_maps : List (List Point)) (rtMap : ℕ → ℚ) : Option DriverSt :=
  let rt_idx_to_points := pointExtraction feature_maps
  let numLeft := rt_idx_to_points.map List.length
  let num_unclassified :=
    ((List.range numLeft.length).filter (fun k => decide (0 < numLeft.getD k 0))).length
  if 0 < num_unclassified then
    chainLoop rtMap (3 / 1000) ((rt_idx_to_points.map List.length).sum + 1)
      ⟨rt_idx_to_points, numLeft, [], 0⟩
  else some ⟨rt_idx_to_points, numLeft, [], 0⟩

/-- The keys scanned by the leftover loop (lines 230-231): dictionary keys
`0 .. len(feature_maps)-1` whose remaining count is positive. -/
def leftoverKeys (numLeft : List ℕ) : List ℕ :=
  (List.range numLeft.length).filter (fun k => decide (0 < numLeft.getD k 0))

/-- Inner leftover loop (lines 234-236): each remaining point of frame `k`
becomes a singleton species under the next counter value. -/
def singletonsOfFrame (rtMap : ℕ → ℚ) (k : ℕ) : List Point → ℕ → List (ℕ × Species)
  | [], _ => []
  | p :: rest, c => (c, ([rtMap k], [p])) :: singletonsOfFrame rtMap k rest (c + 1)

/-- Outer leftover loop (lines 230-236) over the selected keys. -/
def leftoverSpecies (rtMap : ℕ → ℚ) (frames : List (List Point)) :
    List ℕ → ℕ → List (ℕ × Species)
  | [], _ => []
  | k :: ks, c =>
    singletonsOfFrame rtMap k (frames.getD k []) c ++
    leftoverSpecies rtMap frames ks (c + (frames.getD k []).length)

/-- `link_between_frames` (lines 188-242): chaining loop followed by the
leftover singleton emission; returns the `possible_species` dictionary, or
`none` when the Python run raises `IndexError` (stale local-maximum point
index) or never terminates. -/
def linkBetweenFrames (feature_maps : List (List Point)) (rtMap : ℕ → ℚ) :
    Option (List (ℕ × Species)) :=
  match chainPhase feature_maps rtMap with
  | none => none
  | some st => some (st.dict ++ leftoverSpecies rtMap st.frames (leftoverKeys st.numLeft) st.counter)

/-! ## Claim-side variant of the walks for C4

The claim of C4 states that the skip allowance is *reset whenever a Point is
successfully linked*.  The following variant implements exactly that reading
(the only difference to `walkStep`: a successful link continues with
`skipped = 0`).  It is used solely to exhibit that the code's walks differ
from the claimed behaviour. -/

/-- `walkStep` as described by the claim: linking a point resets the skip
counter to `0`. -/
def walkStepClaimReset (eps : ℚ) (rtMap : ℕ → ℚ) (peak : Point) (walkIdx skipped : ℕ)
    (st : WalkSt) : WalkStepRes :=
  let fr := st.frames.getD walkIdx []
  if fr.isEmpty then .stop st
  else
    match firstIdx? (fun q => qualifies eps peak peak.intensity q) fr with
    | some i =>
      .cont ⟨st.frames.set walkIdx (fr.eraseIdx i),
             st.numLeft.set walkIdx (st.numLeft.getD walkIdx 0 - 1),
             st.rts ++ [rtMap walkIdx],
             st.pts ++ [fr.getD i default]⟩ 0
    | none =>
      if skipped + 1 > 2 then .stop st else .cont st (skipped + 1)

/-- Backward walk under the claim's reset semantics. -/
def walkBackClaimReset (eps : ℚ) (rtMap : ℕ → ℚ) (peak : Point) :
    ℕ → ℕ → WalkSt → WalkSt
  | 0, skipped, st =>
    match walkStepClaimReset eps rtMap peak 0 skipped st with
    | .stop st' => st'
    | .cont st' _ => st'
  | w + 1, skipped, st =>
    match walkStepClaimReset eps rtMap peak (w + 1) skipped st with
    | .stop st' => st'
    | .cont st' sk => walkBackClaimReset eps rtMap peak w sk st'

/-- Forward walk under the claim's reset semantics. -/
def walkForwardClaimReset (eps : ℚ) (rtMap : ℕ → ℚ) (peak : Point) :
    ℕ → ℕ → ℕ → WalkSt → WalkSt
  | 0, _, _, st => st
  | fuel + 1, walkIdx, skipped, st =>
    match walkStepClaimReset eps rtMap peak walkIdx skipped st with
    | .stop st' => st'
    | .cont st' sk => walkForwardClaimReset eps rtMap peak fuel (walkIdx + 1) sk st'

/-- `link_to_peak` under the claim's reset semantics. -/
def linkToPeakClaimReset (rt_idx pt_idx : ℕ) (frames : List (List Point)) (numLeft : List ℕ)
    (rtMap : ℕ → ℚ) (eps : ℚ) :
    Option (List (List Point) × List ℕ × Option Species) :=
  if 0 < numLeft.getD rt_idx 0 then
    match (frames.getD rt_idx [])[pt_idx]? with
    | none => none
    | some peak =>
      let st0 : WalkSt :=
        ⟨frames.set rt_idx ((frames.getD rt_idx []).eraseIdx pt_idx),
         numLeft.set rt_idx (numLeft.getD rt_idx 0 - 1),
         [rtMap rt_idx], [peak]⟩
      let st1 := if rt_idx = 0 then st0 else walkBackClaimReset eps rtMap peak (rt_idx - 1) 0 st0
      let st2 := walkForwardClaimReset eps rtMap peak (st1.frames.length - (rt_idx + 1)) (rt_idx + 1) 0 st1
      some (st2.frames, st2.numLeft, some (st2.rts, st2.pts))
  else some (frames, numLeft, none)

/-! ## Precursor search (`search_through_all_frames`, lines 244-292) -/

/-- A precursor match group `[[frame indices], [points]]` as stored in
`possible_precursors`. -/
abbrev MatchGroup := List ℕ × List Point

/-- The matching condition of lines 279-281: mz and rt within `epsilon` of the
precursor, equal charge (no intensity constraint). -/
def precCond (eps : ℚ) (precursor q : Point) : Bool :=
  decide (precursor.mz - eps ≤ q.mz) && decide (q.mz ≤ precursor.mz + eps) &&
  decide (precursor.rt - eps ≤ q.rt) && decide (q.rt ≤ precursor.rt + eps) &&
  decide (q.charge = precursor.charge)

/-- The innermost loop `for l in range(len(points))` (lines 276-284): each
matching point not already recorded in the group (`point not in
possible_precursors[...][1]`) is appended together with its frame index. -/
def scanFramePoints (eps : ℚ) (precursor : Point) (k : ℕ) :
    List Point → MatchGroup → MatchGroup
  | [], g => g
  | q :: qs, g =>
    scanFramePoints eps precursor k qs
      (if precCond eps precursor q && !(decide (q ∈ g.2)) then (g.1 ++ [k], g.2 ++ [q]) else g)

/-- The middle loop `for k in range(i + 1, len(rt_idx_to_points[i + 1:]))`
(lines 273-284), iterating over the given list of frame indices `ks`. -/
def scanLaterFrames (eps : ℚ) (precursor : Point) (frames : List (List Point)) :
    List ℕ → MatchGroup → MatchGroup
  | [], g => g
  | k :: ks, g =>
    scanLaterFrames eps precursor frames ks (scanFramePoints eps precursor k (frames.getD k []) g)

/-- The frame indices actually scanned for a target frame `i`:
Python's `range(i + 1, len(rt_idx_to_points[i + 1:]))`, whose upper bound is
the *length of the slice* `N - (i+1)`, not `N`.  (Nat subtraction matches
Python's empty slice/range clamping.) -/
def scanRange (N i : ℕ) : List ℕ :=
  List.range' (i + 1) ((N - (i + 1)) - (i + 1))

/-- The loop over the seeds of one target frame (lines 269-286): each seed
opens a fresh group seeded with `([i], [precursor])`, scans the (buggy) frame
range, and is stored under the next counter. -/
def searchSeeds (eps : ℚ) (frames : List (List Point)) (i : ℕ) :
    List Point → List (ℕ × MatchGroup) → ℕ → List (ℕ × MatchGroup) × ℕ
  | [], d, c => (d, c)
  | precursor :: rest, d, c =>
    let grp := scanLaterFrames eps precursor frames (scanRange frames.length i) ([i], [precursor])
    searchSeeds eps frames i rest (d ++ [(c, grp)]) (c + 1)

/-- The loop over target frames (line 266): `rt_idx_to_points[i]` raises
`IndexError` for an out-of-range target index, modelled by `none`. -/
def searchAux (eps : ℚ) (frames : List (List Point)) :
    List ℕ → List (ℕ × MatchGroup) → ℕ → Option (List (ℕ × MatchGroup))
  | [], d, _ => some d
  | i :: rest, d, c =>
    match frames[i]? with
    | none => none
    | some precursors =>
      let dc := searchSeeds eps frames i precursors d c
      searchAux eps frames rest dc.1 dc.2

/-- `search_through_all_frames` (lines 244-292).  The function only ever reads
the per-frame point lists; the returned second component is the frame data the
call leaves behind, so that non-mutation is an explicit part of the model. -/
def searchThroughAllFrames (target_feature_map_idxs : List ℕ)
    (feature_maps : List (List Point)) (eps : ℚ) :
    Option (List (ℕ × MatchGroup) × List (List Point)) :=
  let rt_idx_to_points := pointExtraction feature_maps
  match searchAux eps rt_idx_to_points target_feature_map_idxs [] 0 with
  | none => none
  | some d => some (d, rt_idx_to_points)

/-! ## Point cloud (`mass_spec_point_cloud.py`) -/

/-- `MassSpecDataPoint` (lines 3-20). -/
structure MassSpecDataPoint where
  mz : ℚ
  dt : ℚ
  rt : ℚ
  intensity : ℚ
  deriving DecidableEq, Inhabited, Repr

/-- `MassSpecDataPoint.get_array` (lines 19-20): the row
`[mz, dt, rt, intensity]`. -/
def MassSpecDataPoint.get_array (p : MassSpecDataPoint) : List ℚ :=
  [p.mz, p.dt, p.rt, p.intensity]

/-- `MassSpecDataPointCloud` (lines 22-56): the stored data and the
`points_array` cache, which starts as `np.array([])` (modelled by `[]`). -/
structure MassSpecDataPointCloud where
  data : List MassSpecDataPoint
  points_array : List (List ℚ)
  deriving DecidableEq, Repr

/-- `not arr` on a numpy array `arr` (the guard `if not self.points_array`):
an empty array is falsy (so `not` yields `true`), a one-element array takes the
truth value of its element, and any larger array raises
`ValueError: The truth value of an array with more than one element is
ambiguous`, modelled by `Except.error`. -/
def npNot (arr : List (List ℚ)) : Except Unit Bool :=
  match arr.flatten with
  | [] => .ok true
  | [x] => .ok (decide (x = 0))
  | _ => .error ()

/-- `get_points_array` (lines 33-38) with its truthiness cache guard. -/
def get_points_array (c : MassSpecDataPointCloud) :
    Except Unit (List (List ℚ) × MassSpecDataPointCloud) :=
  match npNot c.points_array with
  | .error e => .error e
  | .ok true =>
    let arr := c.data.map MassSpecDataPoint.get_array
    .ok (arr, ⟨c.data, arr⟩)
  | .ok false => .ok (c.points_array, c)

/-- The column selection `pts[:, [0, 1]]` of line 41.  When the cloud holds no
points the cached array is the 1-D `np.array([])` and 2-D indexing raises
`IndexError`, modelled by `Except.error`. -/
def colSelectMzDt (pts : List (List ℚ)) : Except Unit (List (ℚ × ℚ)) :=
  if pts.isEmpty then .error ()
  else .ok (pts.map (fun r => (r.getD 0 0, r.getD 1 0)))

/-- `get_mz_and_dt_bounded_points_array` (lines 40-46): note it calls
`get_points_array` twice (lines 41 and 44), threading the cache state. -/
def get_mz_and_dt_bounded_points_array (c : MassSpecDataPointCloud)
    (lower_left upper_right : ℚ × ℚ) :
    Except Unit (List (List ℚ) × MassSpecDataPointCloud) :=
  match get_points_array c with
  | .error e => .error e
  | .ok (pts, c1) =>
    match colSelectMzDt pts with
    | .error e => .error e
    | .ok xy_pts =>
      let in_idx := xy_pts.map (fun p =>
        decide (lower_left.1 ≤ p.1 ∧ p.1 ≤ upper_right.1) &&
        decide (lower_left.2 ≤ p.2 ∧ p.2 ≤ upper_right.2))
      match get_points_array c1 with
      | .error e => .error e
      | .ok (pts2, c2) =>
        .ok (((pts2.zip in_idx).filter (fun rb => rb.2)).map (fun rb => rb.1), c2)

/-- `get_mz_dt_and_rt_bounded_points_array` (lines 48-56): the comparison
`(lower_left <= pts) & (pts <= upper_right)` broadcasts the bound vectors
against all four columns of the `(n, 4)` array, so the bounds must be
4-vectors (`ℚ × ℚ × ℚ × ℚ`); with no rows the cached array is 1-D and the
broadcast raises `ValueError`, modelled by `Except.error`. -/
def get_mz_dt_and_rt_bounded_points_array (c : MassSpecDataPointCloud)
    (lower_left upper_right : ℚ × ℚ × ℚ × ℚ) :
    Except Unit (List (List ℚ) × MassSpecDataPointCloud) :=
  match get_points_array c with
  | .error e => .error e
  | .ok (pts, c1) =>
    if pts.isEmpty then .error ()
    else
      let in_idx := pts.map (fun r =>
        decide (lower_left.1 ≤ r.getD 0 0 ∧ r.getD 0 0 ≤ upper_right.1) &&
        decide (lower_left.2.1 ≤ r.getD 1 0 ∧ r.getD 1 0 ≤ upper_right.2.1) &&
        decide (lower_left.2.2.1 ≤ r.getD 2 0 ∧ r.getD 2 0 ≤ upper_right.2.2.1) &&
        decide (lower_left.2.2.2 ≤ r.getD 3 0 ∧ r.getD 3 0 ≤ upper_right.2.2.2))
      .ok (((pts.zip in_idx).filter (fun rb => rb.2)).map (fun rb => rb.1), c1)

/-- Claim-side three-axis filter for C9, written from the claim's words:
keep exactly the rows whose mz, drift-time and rt coordinates lie within the
inclusive bounds, with *no constraint on the intensity coordinate*. -/
def threeAxisClaimFilter (rows : List (List ℚ))
    (lower_left upper_right : ℚ × ℚ × ℚ × ℚ) : List (List ℚ) :=
  rows.filter (fun r =>
    decide (lower_left.1 ≤ r.getD 0 0 ∧ r.getD 0 0 ≤ upper_right.1) &&
    decide (lower_left.2.1 ≤ r.getD 1 0 ∧ r.getD 1 0 ≤ upper_right.2.1) &&
    decide (lower_left.2.2.1 ≤ r.getD 2 0 ∧ r.getD 2 0 ≤ upper_right.2.2.1))

/-! ## Concrete inputs used by the scenario theorems, counterexamples and
witnesses -/

/-- The identity frame-coordinate map (`rt_idx_to_rt[i] = i`). -/
def rtId : ℕ → ℚ := fun i => (i : ℚ)

/-- The frames of the spec's linker scenario (C8). -/
def exC8 : List (List Point) :=
  [[⟨100.0, 1.0, 50, 1⟩], [⟨100.001, 1.001, 80, 1⟩], [⟨100.0, 1.0, 30, 1⟩]]

/-- The `possible_species` dictionary `link_between_frames` produces on `exC8`. -/
def exC8Dict : List (ℕ × Species) :=
  [(0, ([1, 0, 2],
    [⟨100.001, 1.001, 80, 1⟩, ⟨100.0, 1.0, 50, 1⟩, ⟨100.0, 1.0, 30, 1⟩]))]

/-- Frames on which the chain seeded at the frame-1 maximum (intensity 80)
links intensity 30 in frame 2 and then intensity 50 in frame 3: every
candidate is only compared against the *seed*, so the resulting intensity
sequence is not monotone (C2). -/
def fmC2 : List (List Point) :=
  [[], [⟨100, 1, 80, 1⟩], [⟨100, 1, 30, 1⟩], [⟨100, 1, 50, 1⟩], []]

/-- Frames with two simultaneous local maxima, `(1, 0)` and `(3, 1)`: the
chain from frame 1 steals the frame-3 point at index 0, so when `(3, 1)` is
processed the saved point index 1 is out of range for the now one-element
frame 3 and `pop(1)` raises `IndexError` (C10, C1). -/
def fmC10 : List (List Point) :=
  [[], [⟨100, 1, 80, 1⟩], [⟨100, 1, 50, 1⟩], [⟨100, 1, 55, 1⟩, ⟨300, 7, 60, 1⟩], []]

/-- Frames for the C4 counterexample: the forward walk from the frame-1 seed
misses at frames 2, 4 and 6 (each holds only a far-away point) and links at
frames 3 and 5.  The skip counter is never reset, so the third cumulative miss
at frame 6 ends the walk and the qualifying point in frame 7 is never linked,
although no three *consecutive* no-match frames ever occurred. -/
def fmC4 : List (List Point) :=
  [[], [⟨100, 1, 80, 1⟩], [⟨200, 9, 10, 1⟩], [⟨100, 1, 70, 1⟩], [⟨200, 9, 10, 1⟩],
   [⟨100, 1, 60, 1⟩], [⟨200, 9, 10, 1⟩], [⟨100, 1, 50, 1⟩]]

/-- Frames for the C3 failing input: three frames, target frame 0; the seed in
frame 0 has a matching point in the last frame (frame 2), but the scanned
range `range(1, len(pts[1:])) = [1]` never reaches it. -/
def fmC3 : List (List Point) :=
  [[⟨200.0, 5.0, 100, 2⟩], [], [⟨200.002, 5.001, 40, 2⟩]]

/-- A one-point cloud with a freshly initialised cache (C5, C9 inputs use the
same shape with different intensities). -/
def exCloud5 : MassSpecDataPointCloud := ⟨[⟨1, 1, 1, 1⟩], []⟩

/-- A one-point cloud whose point has mz, dt and rt inside `[0,2]` but
intensity 100 (C9). -/
def exCloud9 : MassSpecDataPointCloud := ⟨[⟨1, 1, 1, 100⟩], []⟩

/-- A single-seed frame list for the C6 witness. -/
def fmC6 : List (List Point) := [[⟨200.0, 5.0, 100, 2⟩]]

/-! ## Specification-side notions used in the claim statements -/

/-- The multiset of all points held in a list of frames. -/
def framesBag : List (List Point) → Multiset Point
  | [] => 0
  | f :: fs => ↑f + framesBag fs

/-- The multiset of all points stored in a species dictionary. -/
def dictBag : List (ℕ × Species) → Multiset Point
  | [] => 0
  | kv :: rest => ↑kv.2.2 + dictBag rest

/-- The points contributed by an optional species. -/
def ospBag : Option Species → Multiset Point
  | none => 0
  | some sp => ↑sp.2

/-- The bookkeeping invariant of `rt_idx_to_num_points_left`: entry `k` always
equals the length of frame `k`'s working list. -/
def NLinv (frames : List (List Point)) (numLeft : List ℕ) : Prop :=
  numLeft.length = frames.length ∧ ∀ k, numLeft.getD k 0 = (frames.getD k []).length

/-- Claim-side per-frame maximum for C7: the intensity of the most intense
point, `0` for an empty frame (the claim's own convention). -/
def specFrameMax : List Point → ℚ
  | [] => 0
  | q :: rest => rest.foldl (fun a r => max a r.intensity) q.intensity

/-- Claim-side characterisation for C7 of "the in-frame index of that maximum
Point": `p` is in range, no point beats it, and every earlier point is
strictly below it (Python's `max` keeps the first maximal element); an empty
frame carries index `0` by convention. -/
def IsFirstMaxIdx (pts : List Point) (p : ℕ) : Prop :=
  (pts = [] ∧ p = 0) ∨
  (p < pts.length ∧
    (∀ j, j < pts.length → (pts.getD j default).intensity ≤ (pts.getD p default).intensity) ∧
    (∀ j, j < p → (pts.getD j default).intensity < (pts.getD p default).intensity))

/-! ## Supporting lemmas: lists, multisets and the walk machinery -/

lemma getD_of_length_le {α : Type*} (l : List α) (d : α) {i : ℕ} (h : l.length ≤ i) :
    l.getD i d = d := by
  simp [List.getD_eq_getElem?_getD, List.getElem?_eq_none h]

lemma lt_length_of_getD_ne {α : Type*} {l : List α} {d : α} {i : ℕ} (h : l.getD i d ≠ d) :
    i < l.length := by
  by_contra hc
  exact h (getD_of_length_le l d (Nat.le_of_not_lt hc))

lemma getD_set_self {α : Type*} (l : List α) {i : ℕ} (v d : α) (h : i < l.length) :
    (l.set i v).getD i d = v := by
  simp [List.getD_eq_getElem?_getD, List.getElem?_set_self h]

lemma getD_set_ne {α : Type*} (l : List α) {i k : ℕ} (v d : α) (h : i ≠ k) :
    (l.set i v).getD k d = l.getD k d := by
  simp [List.getD_eq_getElem?_getD, List.getElem?_set_ne h]

lemma length_eraseIdx_of_lt {α : Type*} {l : List α} {i : ℕ} (h : i < l.length) :
    (l.eraseIdx i).length = l.length - 1 := by
  simp [List.length_eraseIdx, h]

lemma coe_eraseIdx_getD {α : Type*} [Inhabited α] :
    ∀ (l : List α) (i : ℕ), i < l.length →
      (l : Multiset α) = l.getD i default ::ₘ ↑(l.eraseIdx i)
  | [], i, h => by simp at h
  | a :: as, 0, _ => by simp
  | a :: as, i + 1, h => by
    have ih := coe_eraseIdx_getD as i (by simpa using Nat.lt_of_succ_lt_succ h)
    simp only [List.eraseIdx_cons_succ, List.getD_cons_succ]
    rw [← Multiset.cons_coe, ← Multiset.cons_coe, ih]
    exact (Multiset.cons_swap _ _ _)

lemma framesBag_set :
    ∀ (fs : List (List Point)) (k : ℕ) (v : List Point), k < fs.length →
      framesBag (fs.set k v) + (fs.getD k [] : Multiset Point) = framesBag fs + ↑v
  | [], k, v, h => by simp at h
  | f :: fs, 0, v, _ => by
    simp only [List.set, List.getD_cons_zero, framesBag]
    abel
  | f :: fs, k + 1, v, h => by
    have ih := framesBag_set fs k v (by simpa using Nat.lt_of_succ_lt_succ h)
    simp only [List.set, List.getD_cons_succ, framesBag]
    rw [add_assoc, ih, add_assoc]

lemma dictBag_append (d₁ d₂ : List (ℕ × Species)) :
    dictBag (d₁ ++ d₂) = dictBag d₁ + dictBag d₂ := by
  induction d₁ with
  | nil => simp [dictBag]
  | cons kv rest ih =>
    show ↑kv.2.2 + dictBag (rest ++ d₂) = ↑kv.2.2 + dictBag rest + dictBag d₂
    rw [ih, add_assoc]

lemma firstIdx?_lt {α : Type*} {p : α → Bool} :
    ∀ {l : List α} {i : ℕ}, firstIdx? p l = some i → i < l.length := by
  intro l
  induction l with
  | nil => intro i h; simp [firstIdx?] at h
  | cons a as ih =>
    intro i h
    simp only [firstIdx?] at h
    by_cases hp : p a
    · rw [if_pos hp] at h
      cases h
      simp
    · rw [if_neg hp] at h
      match hrec : firstIdx? p as with
      | none => rw [hrec] at h; simp at h
      | some j =>
        rw [hrec] at h
        have hj : j + 1 = i := by simpa using h
        have := ih hrec
        simp only [List.length_cons]
        omega

lemma firstIdx?_sat {α : Type*} [Inhabited α] {p : α → Bool} :
    ∀ {l : List α} {i : ℕ}, firstIdx? p l = some i → p (l.getD i default) = true := by
  intro l
  induction l with
  | nil => intro i h; simp [firstIdx?] at h
  | cons a as ih =>
    intro i h
    simp only [firstIdx?] at h
    by_cases hp : p a
    · rw [if_pos hp] at h
      cases h
      simpa using hp
    · rw [if_neg hp] at h
      match hrec : firstIdx? p as with
      | none => rw [hrec] at h; simp at h
      | some j =>
        rw [hrec] at h
        have hj : j + 1 = i := by simpa using h
        subst hj
        simpa using ih hrec

lemma getElem?_some_lt {α : Type*} {l : List α} {i : ℕ} {a : α} (h : l[i]? = some a) :
    i < l.length := by
  by_contra hc
  rw [List.getElem?_eq_none (Nat.le_of_not_lt hc)] at h
  cases h

lemma getD_of_getElem?_some {α : Type*} [Inhabited α] {l : List α} {i : ℕ} {a : α}
    (h : l[i]? = some a) : l.getD i default = a := by
  rw [List.getD_eq_getElem?_getD, h]
  rfl

lemma walkStep_stop {eps : ℚ} {rtMap : ℕ → ℚ} {peak : Point} {w sk : ℕ} {st st' : WalkSt}
    (h : walkStep eps rtMap peak w sk st = .stop st') : st' = st := by
  simp only [walkStep] at h
  split at h
  · cases h; rfl
  · split at h
    · cases h
    · split at h
      · cases h; rfl
      · cases h

lemma walkStep_cont {eps : ℚ} {rtMap : ℕ → ℚ} {peak : Point} {w sk : ℕ} {st st' : WalkSt}
    {sk' : ℕ} (h : walkStep eps rtMap peak w sk st = .cont st' sk') :
    (st' = st ∧ sk' = sk + 1 ∧ sk ≤ 1) ∨
    (∃ i, w < st.frames.length ∧ i < (st.frames.getD w []).length ∧
      qualifies eps peak peak.intensity ((st.frames.getD w []).getD i default) = true ∧
      st' = ⟨st.frames.set w ((st.frames.getD w []).eraseIdx i),
             st.numLeft.set w (st.numLeft.getD w 0 - 1),
             st.rts ++ [rtMap w],
             st.pts ++ [(st.frames.getD w []).getD i default]⟩ ∧
      sk' = sk) := by
  simp only [walkStep] at h
  split at h
  · cases h
  next hne =>
    split at h
    next i hfound =>
      right
      refine ⟨i, ?_, firstIdx?_lt hfound, firstIdx?_sat hfound, ?_, ?_⟩
      · apply lt_length_of_getD_ne
        intro hc
        rw [hc] at hne
        simp at hne
      · cases h; rfl
      · cases h; rfl
    · split at h
      · cases h
      next hsk => cases h; exact Or.inl ⟨rfl, rfl, by omega⟩

lemma walkStep_cont_bag {eps : ℚ} {rtMap : ℕ → ℚ} {peak : Point} {w sk : ℕ} {st st' : WalkSt}
    {sk' : ℕ} (h : walkStep eps rtMap peak w sk st = .cont st' sk') :
    framesBag st'.frames + ↑st'.pts = framesBag st.frames + ↑st.pts := by
  rcases walkStep_cont h with ⟨rfl, _, _⟩ | ⟨i, hw, hi, _, rfl, _⟩
  · rfl
  · have h1 := framesBag_set st.frames w ((st.frames.getD w []).eraseIdx i) hw
    have h2 := coe_eraseIdx_getD (st.frames.getD w []) i hi
    have key : framesBag (st.frames.set w ((st.frames.getD w []).eraseIdx i)) +
        {(st.frames.getD w []).getD i default} = framesBag st.frames := by
      have h3 := h1
      rw [h2, ← Multiset.singleton_add] at h3
      have h4 : framesBag (st.frames.set w ((st.frames.getD w []).eraseIdx i)) +
          {(st.frames.getD w []).getD i default} +
          ↑((st.frames.getD w []).eraseIdx i) =
          framesBag st.frames + ↑((st.frames.getD w []).eraseIdx i) := by
        rw [← h3]; abel
      exact add_right_cancel h4
    show framesBag (st.frames.set w ((st.frames.getD w []).eraseIdx i)) +
        ↑(st.pts ++ [(st.frames.getD w []).getD i default]) =
        framesBag st.frames + ↑st.pts
    rw [← Multiset.coe_add, Multiset.coe_singleton, ← key]
    abel

lemma walkStep_cont_nl {eps : ℚ} {rtMap : ℕ → ℚ} {peak : Point} {w sk : ℕ} {st st' : WalkSt}
    {sk' : ℕ} (h : walkStep eps rtMap peak w sk st = .cont st' sk')
    (hnl : NLinv st.frames st.numLeft) : NLinv st'.frames st'.numLeft := by
  rcases walkStep_cont h with ⟨rfl, _, _⟩ | ⟨i, hw, hi, _, rfl, _⟩
  · exact hnl
  · constructor
    · simp [List.length_set, hnl.1]
    · intro k
      by_cases hk : w = k
      · subst hk
        rw [getD_set_self _ _ _ (by rw [hnl.1]; exact hw),
            getD_set_self _ _ _ hw, length_eraseIdx_of_lt hi, hnl.2 w]
      · show (st.numLeft.set w _).getD k 0 = ((st.frames.set w _).getD k []).length
        rw [getD_set_ne _ _ _ hk, getD_set_ne _ _ _ hk]
        exact hnl.2 k

lemma walkStep_cont_len {eps : ℚ} {rtMap : ℕ → ℚ} {peak : Point} {w sk : ℕ} {st st' : WalkSt}
    {sk' : ℕ} (h : walkStep eps rtMap peak w sk st = .cont st' sk') :
    st'.frames.length = st.frames.length := by
  rcases walkStep_cont h with ⟨rfl, _, _⟩ | ⟨i, _, _, _, rfl, _⟩
  · rfl
  · simp [List.length_set]

lemma walkBack_bag (eps : ℚ) (rtMap : ℕ → ℚ) (peak : Point) :
    ∀ (w sk : ℕ) (st : WalkSt),
      framesBag (walkBack eps rtMap peak w sk st).frames +
        ↑(walkBack eps rtMap peak w sk st).pts = framesBag st.frames + ↑st.pts := by
  intro w
  induction w with
  | zero =>
    intro sk st
    cases hws : walkStep eps rtMap peak 0 sk st with
    | stop st' => rw [walkBack, hws, walkStep_stop hws]
    | cont st' sk' => rw [walkBack, hws]; exact walkStep_cont_bag hws
  | succ w ih =>
    intro sk st
    cases hws : walkStep eps rtMap peak (w + 1) sk st with
    | stop st' => rw [walkBack, hws, walkStep_stop hws]
    | cont st' sk' =>
      rw [walkBack, hws]
      rw [ih sk' st', walkStep_cont_bag hws]

lemma walkBack_nl (eps : ℚ) (rtMap : ℕ → ℚ) (peak : Point) :
    ∀ (w sk : ℕ) (st : WalkSt), NLinv st.frames st.numLeft →
      NLinv (walkBack eps rtMap peak w sk st).frames (walkBack eps rtMap peak w sk st).numLeft := by
  intro w
  induction w with
  | zero =>
    intro sk st hnl
    cases hws : walkStep eps rtMap peak 0 sk st with
    | stop st' => rw [walkBack, hws, walkStep_stop hws]; exact hnl
    | cont st' sk' => rw [walkBack, hws]; exact walkStep_cont_nl hws hnl
  | succ w ih =>
    intro sk st hnl
    cases hws : walkStep eps rtMap peak (w + 1) sk st with
    | stop st' => rw [walkBack, hws, walkStep_stop hws]; exact hnl
    | cont st' sk' =>
      rw [walkBack, hws]
      exact ih sk' st' (walkStep_cont_nl hws hnl)

lemma walkForward_bag (eps : ℚ) (rtMap : ℕ → ℚ) (peak : Point) :
    ∀ (fuel w sk : ℕ) (st : WalkSt),
      framesBag (walkForward eps rtMap peak fuel w sk st).frames +
        ↑(walkForward eps rtMap peak fuel w sk st).pts = framesBag st.frames + ↑st.pts := by
  intro fuel
  induction fuel with
  | zero => intro w sk st; rw [walkForward]
  | succ fuel ih =>
    intro w sk st
    cases hws : walkStep eps rtMap peak w sk st with
    | stop st' => rw [walkForward, hws, walkStep_stop hws]
    | cont st' sk' =>
      rw [walkForward, hws]
      rw [ih (w + 1) sk' st', walkStep_cont_bag hws]

lemma walkForward_nl (eps : ℚ) (rtMap : ℕ → ℚ) (peak : Point) :
    ∀ (fuel w sk : ℕ) (st : WalkSt), NLinv st.frames st.numLeft →
      NLinv (walkForward eps rtMap peak fuel w sk st).frames
        (walkForward eps rtMap peak fuel w sk st).numLeft := by
  intro fuel
  induction fuel with
  | zero => intro w sk st hnl; rw [walkForward]; exact hnl
  | succ fuel ih =>
    intro w sk st hnl
    cases hws : walkStep eps rtMap peak w sk st with
    | stop st' => rw [walkForward, hws, walkStep_stop hws]; exact hnl
    | cont st' sk' =>
      rw [walkForward, hws]
      exact ih (w + 1) sk' st' (walkStep_cont_nl hws hnl)

lemma linkToPeak_bag {rt_idx pt_idx : ℕ} {frames : List (List Point)} {numLeft : List ℕ}
    {rtMap : ℕ → ℚ} {eps : ℚ} {fr' : List (List Point)} {nl' : List ℕ} {osp : Option Species}
    (h : linkToPeak rt_idx pt_idx frames numLeft rtMap eps = some (fr', nl', osp)) :
    framesBag fr' + ospBag osp = framesBag frames := by
  rw [linkToPeak] at h
  split at h
  next hpos =>
    split at h
    · cases h
    next peak hpk =>
      simp only [Option.some.injEq, Prod.mk.injEq] at h
      obtain ⟨hfr, hnl, hosp⟩ := h
      have hidx : pt_idx < (frames.getD rt_idx []).length := getElem?_some_lt hpk
      have hrt : rt_idx < frames.length := by
        apply lt_length_of_getD_ne
        intro hc
        rw [hc] at hidx
        simp at hidx
      have hpkD : (frames.getD rt_idx []).getD pt_idx default = peak :=
        getD_of_getElem?_some hpk
      have hst0 : framesBag (frames.set rt_idx ((frames.getD rt_idx []).eraseIdx pt_idx)) +
          ↑([peak] : List Point) = framesBag frames := by
        have h1 := framesBag_set frames rt_idx ((frames.getD rt_idx []).eraseIdx pt_idx) hrt
        have h2 := coe_eraseIdx_getD (frames.getD rt_idx []) pt_idx hidx
        rw [hpkD] at h2
        rw [h2, ← Multiset.singleton_add] at h1
        have h4 : framesBag (frames.set rt_idx ((frames.getD rt_idx []).eraseIdx pt_idx)) +
            ↑([peak] : List Point) + ↑((frames.getD rt_idx []).eraseIdx pt_idx) =
            framesBag frames + ↑((frames.getD rt_idx []).eraseIdx pt_idx) := by
          rw [← h1]
          simp only [Multiset.coe_singleton]
          abel
        exact add_right_cancel h4
      set st0 : WalkSt :=
        ⟨frames.set rt_idx ((frames.getD rt_idx []).eraseIdx pt_idx),
         numLeft.set rt_idx (numLeft.getD rt_idx 0 - 1),
         [rtMap rt_idx], [peak]⟩ with hst0def
      set st1 := if rt_idx = 0 then st0 else walkBack eps rtMap peak (rt_idx - 1) 0 st0 with hst1def
      have hb1 : framesBag st1.frames + ↑st1.pts = framesBag st0.frames + ↑st0.pts := by
        rw [hst1def]
        split
        · rfl
        · exact walkBack_bag eps rtMap peak (rt_idx - 1) 0 st0
      have hb2 := walkForward_bag eps rtMap peak (st1.frames.length - (rt_idx + 1))
        (rt_idx + 1) 0 st1
      rw [← hfr, ← hosp]
      show framesBag (walkForward eps rtMap peak (st1.frames.length - (rt_idx + 1))
          (rt_idx + 1) 0 st1).frames +
        ↑(walkForward eps rtMap peak (st1.frames.length - (rt_idx + 1)) (rt_idx + 1) 0 st1).pts =
        framesBag frames
      rw [hb2, hb1]
      exact hst0
  next =>
    simp only [Option.some.injEq, Prod.mk.injEq] at h
    obtain ⟨hfr, hnl, hosp⟩ := h
    rw [← hfr, ← hosp]
    show framesBag frames + ospBag none = framesBag frames
    simp [ospBag]

lemma linkToPeak_nl {rt_idx pt_idx : ℕ} {frames : List (List Point)} {numLeft : List ℕ}
    {rtMap : ℕ → ℚ} {eps : ℚ} {fr' : List (List Point)} {nl' : List ℕ} {osp : Option Species}
    (h : linkToPeak rt_idx pt_idx frames numLeft rtMap eps = some (fr', nl', osp))
    (hnl : NLinv frames numLeft) : NLinv fr' nl' := by
  rw [linkToPeak] at h
  split at h
  next hpos =>
    split at h
    · cases h
    next peak hpk =>
      simp only [Option.some.injEq, Prod.mk.injEq] at h
      obtain ⟨hfr, hnl', _⟩ := h
      have hidx : pt_idx < (frames.getD rt_idx []).length := getElem?_some_lt hpk
      have hrt : rt_idx < frames.length := by
        apply lt_length_of_getD_ne
        intro hc
        rw [hc] at hidx
        simp at hidx
      have hnl0 : NLinv (frames.set rt_idx ((frames.getD rt_idx []).eraseIdx pt_idx))
          (numLeft.set rt_idx (numLeft.getD rt_idx 0 - 1)) := by
        constructor
        · simp [List.length_set, hnl.1]
        · intro k
          by_cases hk : rt_idx = k
          · subst hk
            rw [getD_set_self _ _ _ (by rw [hnl.1]; exact hrt),
                getD_set_self _ _ _ hrt, length_eraseIdx_of_lt hidx, hnl.2 rt_idx]
          · rw [getD_set_ne _ _ _ hk, getD_set_ne _ _ _ hk]
            exact hnl.2 k
      set st0 : WalkSt :=
        ⟨frames.set rt_idx ((frames.getD rt_idx []).eraseIdx pt_idx),
         numLeft.set rt_idx (numLeft.getD rt_idx 0 - 1),
         [rtMap rt_idx], [peak]⟩ with hst0def
      set st1 := if rt_idx = 0 then st0 else walkBack eps rtMap peak (rt_idx - 1) 0 st0 with hst1def
      have hi1 : NLinv st1.frames st1.numLeft := by
        rw [hst1def]
        split
        · exact hnl0
        · exact walkBack_nl eps rtMap peak (rt_idx - 1) 0 st0 hnl0
      have hi2 := walkForward_nl eps rtMap peak (st1.frames.length - (rt_idx + 1))
        (rt_idx + 1) 0 st1 hi1
      rw [← hfr, ← hnl']
      exact hi2
  next =>
    simp only [Option.some.injEq, Prod.mk.injEq] at h
    obtain ⟨hfr, hnl', _⟩ := h
    rw [← hfr, ← hnl']
    exact hnl

lemma pointExtraction_id (fm : List (List Point)) : pointExtraction fm = fm := by
  show fm.map (fun fr => fr.map (fun f => f)) = fm
  simp

lemma mapLength_getD : ∀ (fm : List (List Point)) (k : ℕ),
    (fm.map List.length).getD k 0 = (fm.getD k []).length
  | [], k => by simp
  | f :: fs, 0 => by simp
  | f :: fs, k + 1 => by
    simp only [List.map_cons, List.getD_cons_succ]
    exact mapLength_getD fs k

lemma NLinv_init (fm : List (List Point)) : NLinv fm (fm.map List.length) :=
  ⟨by simp, fun k => mapLength_getD fm k⟩

lemma chainPass_inv (rtMap : ℕ → ℚ) (eps : ℚ) :
    ∀ (maxima : List (ℕ × ℕ)) (st st' : DriverSt),
      chainPass rtMap eps maxima st = some st' → NLinv st.frames st.numLeft →
      (framesBag st'.frames + dictBag st'.dict = framesBag st.frames + dictBag st.dict) ∧
      NLinv st'.frames st'.numLeft := by
  intro maxima
  induction maxima with
  | nil =>
    intro st st' h hnl
    rw [chainPass] at h
    cases h
    exact ⟨rfl, hnl⟩
  | cons m rest ih =>
    intro st st' h hnl
    rw [chainPass] at h
    cases hlp : linkToPeak m.1 m.2 st.frames st.numLeft rtMap eps with
    | none => rw [hlp] at h; cases h
    | some res =>
      obtain ⟨fr', nl', osp⟩ := res
      rw [hlp] at h
      obtain ⟨ihbag, ihnl⟩ := ih _ st' h (linkToPeak_nl hlp hnl)
      refine ⟨?_, ihnl⟩
      rw [ihbag]
      have hbag := linkToPeak_bag hlp
      cases osp with
      | none =>
        show framesBag fr' + dictBag st.dict = framesBag st.frames + dictBag st.dict
        have : framesBag fr' = framesBag st.frames := by
          simpa [ospBag] using hbag
        rw [this]
      | some sp =>
        show framesBag fr' + dictBag (st.dict ++ [(st.counter, sp)]) =
          framesBag st.frames + dictBag st.dict
        rw [dictBag_append]
        show framesBag fr' + (dictBag st.dict + (↑sp.2 + dictBag [])) = _
        rw [dictBag]
        have hb : framesBag fr' + ↑sp.2 = framesBag st.frames := by
          simpa [ospBag] using hbag
        rw [← hb]
        abel

lemma chainLoop_inv (rtMap : ℕ → ℚ) (eps : ℚ) :
    ∀ (fuel : ℕ) (st st' : DriverSt),
      chainLoop rtMap eps fuel st = some st' → NLinv st.frames st.numLeft →
      (framesBag st'.frames + dictBag st'.dict = framesBag st.frames + dictBag st.dict) ∧
      NLinv st'.frames st'.numLeft := by
  intro fuel
  induction fuel with
  | zero => intro st st' h _; cases h
  | succ fuel ih =>
    intro st st' h hnl
    rw [chainLoop] at h
    split at h
    · cases h; exact ⟨rfl, hnl⟩
    · cases hcp : chainPass rtMap eps (findLocalMaximaIndices st.frames) st with
      | none => rw [hcp] at h; cases h
      | some st₁ =>
        rw [hcp] at h
        obtain ⟨b1, n1⟩ := chainPass_inv rtMap eps _ st st₁ hcp hnl
        obtain ⟨b2, n2⟩ := ih st₁ st' h n1
        exact ⟨by rw [b2, b1], n2⟩

lemma chainPhase_inv {fm : List (List Point)} {rtMap : ℕ → ℚ} {st : DriverSt}
    (h : chainPhase fm rtMap = some st) :
    (framesBag st.frames + dictBag st.dict = framesBag fm) ∧ NLinv st.frames st.numLeft := by
  rw [chainPhase, pointExtraction_id] at h
  split at h
  · have h0 : NLinv fm (fm.map List.length) := NLinv_init fm
    obtain ⟨b, n⟩ := chainLoop_inv rtMap (3 / 1000) _ _ st h h0
    refine ⟨?_, n⟩
    rw [b]
    show framesBag fm + dictBag [] = framesBag fm
    rw [dictBag, add_zero]
  · cases h
    exact ⟨by rw [dictBag, add_zero], NLinv_init fm⟩

lemma singletonsOfFrame_bag (rtMap : ℕ → ℚ) (k : ℕ) :
    ∀ (pts : List Point) (c : ℕ),
      dictBag (singletonsOfFrame rtMap k pts c) = ↑pts
  | [], c => by rw [singletonsOfFrame, dictBag]; rfl
  | p :: rest, c => by
    rw [singletonsOfFrame, dictBag, singletonsOfFrame_bag rtMap k rest (c + 1)]
    rw [← Multiset.cons_coe, ← Multiset.singleton_add]
    rfl

lemma singletonsOfFrame_shape (rtMap : ℕ → ℚ) (k : ℕ) :
    ∀ (pts : List Point) (c : ℕ) (kv : ℕ × Species),
      kv ∈ singletonsOfFrame rtMap k pts c → kv.2.1.length = 1 ∧ kv.2.2.length = 1
  | [], c, kv, h => by rw [singletonsOfFrame] at h; cases h
  | p :: rest, c, kv, h => by
    rw [singletonsOfFrame] at h
    cases h with
    | head => exact ⟨rfl, rfl⟩
    | tail _ h' => exact singletonsOfFrame_shape rtMap k rest (c + 1) kv h'

lemma leftoverSpecies_bag (rtMap : ℕ → ℚ) (frames : List (List Point)) :
    ∀ (ks : List ℕ) (c : ℕ),
      dictBag (leftoverSpecies rtMap frames ks c) =
        framesBag (ks.map (fun k => frames.getD k []))
  | [], c => by rw [leftoverSpecies, dictBag, List.map_nil, framesBag]
  | k :: ks, c => by
    rw [leftoverSpecies, dictBag_append, List.map_cons, framesBag,
      singletonsOfFrame_bag, leftoverSpecies_bag rtMap frames ks _]

lemma leftoverSpecies_shape (rtMap : ℕ → ℚ) (frames : List (List Point)) :
    ∀ (ks : List ℕ) (c : ℕ) (kv : ℕ × Species),
      kv ∈ leftoverSpecies rtMap frames ks c → kv.2.1.length = 1 ∧ kv.2.2.length = 1
  | [], c, kv, h => by rw [leftoverSpecies] at h; cases h
  | k :: ks, c, kv, h => by
    rw [leftoverSpecies] at h
    rcases List.mem_append.mp h with h' | h'
    · exact singletonsOfFrame_shape rtMap k _ c kv h'
    · exact leftoverSpecies_shape rtMap frames ks _ kv h'

lemma range_map_getD : ∀ (frames : List (List Point)),
    (List.range frames.length).map (fun k => frames.getD k []) = frames
  | [] => by simp
  | f :: fs => by
    rw [List.length_cons, List.range_succ_eq_map, List.map_cons, List.getD_cons_zero,
      List.map_map]
    have : ((fun k => (f :: fs).getD k []) ∘ Nat.succ) = fun k => fs.getD k [] := by
      funext k
      simp [Function.comp]
    rw [this, range_map_getD fs]

lemma framesBag_filter_of_empty (p : ℕ → Bool) (getf : ℕ → List Point) :
    ∀ ks : List ℕ, (∀ k ∈ ks, p k = false → getf k = []) →
      framesBag ((ks.filter p).map getf) = framesBag (ks.map getf)
  | [], _ => by simp
  | k :: ks, h => by
    have ih := framesBag_filter_of_empty p getf ks (fun k' hk' => h k' (List.mem_cons_of_mem _ hk'))
    rw [List.filter_cons]
    by_cases hp : p k
    · rw [if_pos hp, List.map_cons, List.map_cons, framesBag, framesBag, ih]
    · rw [if_neg (by simpa using hp), List.map_cons, framesBag,
        h k (List.mem_cons_self k ks) (by simpa using hp), ih]
      simp

lemma leftover_bag_full {frames : List (List Point)} {nl : List ℕ}
    (hnl : NLinv frames nl) (rtMap : ℕ → ℚ) (c : ℕ) :
    dictBag (leftoverSpecies rtMap frames (leftoverKeys nl) c) = framesBag frames := by
  rw [leftoverSpecies_bag, leftoverKeys]
  rw [framesBag_filter_of_empty _ _ (List.range nl.length) ?_]
  · rw [hnl.1, range_map_getD]
  · intro k _ hfalse
    have : ¬ 0 < nl.getD k 0 := by simpa using hfalse
    have hz : nl.getD k 0 = 0 := by omega
    have := hnl.2 k
    rw [hz] at this
    exact (List.length_eq_zero).mp this.symm

/-! ## Claim C1 -/

/-- Claim C1 (amended): whenever `link_between_frames` returns a species
dictionary (it can also raise `IndexError` through a stale local-maximum point
index, or loop forever — see the counterexample), the Species in the returned
mapping together contain every input Point exactly once (multiset equality:
no Point lost, none duplicated), and every entry that did not come from the
local-maximum chaining phase is a singleton species of one frame coordinate
and one Point. -/
theorem c1_linker_partition (fm : List (List Point)) (rtMap : ℕ → ℚ) (d : List (ℕ × Species))
    (h : linkBetweenFrames fm rtMap = some d) :
    dictBag d = framesBag fm ∧
    ∀ kv ∈ d, (∀ st, chainPhase fm rtMap = some st → kv ∉ st.dict) →
      kv.2.1.length = 1 ∧ kv.2.2.length = 1 := by
  rw [linkBetweenFrames] at h
  cases hcp : chainPhase fm rtMap with
  | none => rw [hcp] at h; cases h
  | some st =>
    rw [hcp] at h
    cases h
    obtain ⟨hbag, hnl⟩ := chainPhase_inv hcp
    constructor
    · rw [dictBag_append, leftover_bag_full hnl, add_comm]
      exact hbag
    · intro kv hmem hnotin
      rcases List.mem_append.mp hmem with hin | hin
      · exact absurd hin (hnotin st rfl)
      · exact leftoverSpecies_shape rtMap st.frames _ st.counter kv hin

/-- Claim C1 counterexample: on `fmC10` the driver raises `IndexError`
(modelled by `none`) instead of returning a mapping, so its five input points
end up in no returned Species at all — the universally quantified claim ("for
every collection ... the Species in the returned mapping contain every input
Point exactly once") is false on this input. -/
theorem c1_counterexample : linkBetweenFrames fmC10 rtId = none := by
  norm_num [linkBetweenFrames, chainPhase, chainLoop, chainPass, linkToPeak, walkBack,
    walkForward, walkStep, firstIdx?, qualifies, findLocalMaximaIndices, argrelextremaGreater,
    maxInts, maxIntPtIdxs, maxIntensityEntry, maxIntensityAux, pointExtraction,
    leftoverKeys, singletonsOfFrame, leftoverSpecies, fmC10, rtId,
    List.range, List.range.loop, List.getD, List.eraseIdx, List.set]

/-- Claim C1 witness: the amended theorem applied to the concrete three-frame
input of the spec scenario. -/
theorem c1_witness : dictBag exC8Dict = framesBag exC8 :=
  (c1_linker_partition exC8 rtId exC8Dict (by
    norm_num [linkBetweenFrames, chainPhase, chainLoop, chainPass, linkToPeak, walkBack,
      walkForward, walkStep, firstIdx?, qualifies, findLocalMaximaIndices, argrelextremaGreater,
      maxInts, maxIntPtIdxs, maxIntensityEntry, maxIntensityAux, pointExtraction,
      leftoverKeys, singletonsOfFrame, leftoverSpecies, exC8, exC8Dict, rtId,
      List.range, List.range.loop, List.getD, List.eraseIdx, List.set])).1

/-! ## Claim C8 -/

/-- Claim C8: on frames `[[(100.0,1.0,50,1)], [(100.001,1.001,80,1)],
[(100.0,1.0,30,1)]]` with ε = 0.003 the pipeline selects frame 1 (in-frame
index 0) as the only local maximum and produces exactly one species that spans
all three frames; read in ascending frame order its intensities are
`[50, 80, 30]` (the species stores the frames in visit order `[1, 0, 2]`). -/
theorem c8_scenario :
    findLocalMaximaIndices exC8 = [(1, 0)] ∧
    linkBetweenFrames exC8 rtId = some exC8Dict ∧
    ∃ rts pts, exC8Dict = [(0, (rts, pts))] ∧
      (rts.zip (pts.map Point.intensity)).Perm [((0 : ℚ), (50 : ℚ)), (1, 80), (2, 30)] := by
  refine ⟨?_, ?_, ?_⟩
  · norm_num [findLocalMaximaIndices, argrelextremaGreater, maxInts, maxIntPtIdxs,
      maxIntensityEntry, maxIntensityAux, exC8, List.range, List.range.loop, List.getD]
  · norm_num [linkBetweenFrames, chainPhase, chainLoop, chainPass, linkToPeak, walkBack,
      walkForward, walkStep, firstIdx?, qualifies, findLocalMaximaIndices, argrelextremaGreater,
      maxInts, maxIntPtIdxs, maxIntensityEntry, maxIntensityAux, pointExtraction,
      leftoverKeys, singletonsOfFrame, leftoverSpecies, exC8, exC8Dict, rtId,
      List.range, List.range.loop, List.getD, List.eraseIdx, List.set]
  · refine ⟨[1, 0, 2],
      [⟨100.001, 1.001, 80, 1⟩, ⟨100.0, 1.0, 50, 1⟩, ⟨100.0, 1.0, 30, 1⟩], rfl, ?_⟩
    show ([((1 : ℚ), (80 : ℚ)), (0, 50), (2, 30)]).Perm [(0, 50), (1, 80), (2, 30)]
    exact List.Perm.swap _ _ _

/-! ## Claim C2 -/

lemma walkStep_cont_pts {eps : ℚ} {rtMap : ℕ → ℚ} {peak : Point} {w sk : ℕ} {st st' : WalkSt}
    {sk' : ℕ} (h : walkStep eps rtMap peak w sk st = .cont st' sk') :
    ∃ ext, st'.pts = st.pts ++ ext ∧
      ∀ q ∈ ext, qualifies eps peak peak.intensity q = true := by
  rcases walkStep_cont h with ⟨rfl, _, _⟩ | ⟨i, _, _, hq, rfl, _⟩
  · exact ⟨[], by simp, by simp⟩
  · refine ⟨[(st.frames.getD w []).getD i default], rfl, ?_⟩
    intro q hq'
    rw [List.mem_singleton] at hq'
    rw [hq']
    exact hq

lemma walkBack_pts (eps : ℚ) (rtMap : ℕ → ℚ) (peak : Point) :
    ∀ (w sk : ℕ) (st : WalkSt),
      ∃ ext, (walkBack eps rtMap peak w sk st).pts = st.pts ++ ext ∧
        ∀ q ∈ ext, qualifies eps peak peak.intensity q = true := by
  intro w
  induction w with
  | zero =>
    intro sk st
    cases hws : walkStep eps rtMap peak 0 sk st with
    | stop st' =>
      rw [walkBack, hws, walkStep_stop hws]
      exact ⟨[], by simp, by simp⟩
    | cont st' sk' =>
      rw [walkBack, hws]
      exact walkStep_cont_pts hws
  | succ w ih =>
    intro sk st
    cases hws : walkStep eps rtMap peak (w + 1) sk st with
    | stop st' =>
      rw [walkBack, hws, walkStep_stop hws]
      exact ⟨[], by simp, by simp⟩
    | cont st' sk' =>
      rw [walkBack, hws]
      obtain ⟨e1, he1, hq1⟩ := walkStep_cont_pts hws
      obtain ⟨e2, he2, hq2⟩ := ih sk' st'
      refine ⟨e1 ++ e2, by rw [he2, he1, List.append_assoc], ?_⟩
      intro q hq
      rcases List.mem_append.mp hq with h' | h'
      · exact hq1 q h'
      · exact hq2 q h'

lemma walkForward_pts (eps : ℚ) (rtMap : ℕ → ℚ) (peak : Point) :
    ∀ (fuel w sk : ℕ) (st : WalkSt),
      ∃ ext, (walkForward eps rtMap peak fuel w sk st).pts = st.pts ++ ext ∧
        ∀ q ∈ ext, qualifies eps peak peak.intensity q = true := by
  intro fuel
  induction fuel with
  | zero =>
    intro w sk st
    rw [walkForward]
    exact ⟨[], by simp, by simp⟩
  | succ fuel ih =>
    intro w sk st
    cases hws : walkStep eps rtMap peak w sk st with
    | stop st' =>
      rw [walkForward, hws, walkStep_stop hws]
      exact ⟨[], by simp, by simp⟩
    | cont st' sk' =>
      rw [walkForward, hws]
      obtain ⟨e1, he1, hq1⟩ := walkStep_cont_pts hws
      obtain ⟨e2, he2, hq2⟩ := ih (w + 1) sk' st'
      refine ⟨e1 ++ e2, by rw [he2, he1, List.append_assoc], ?_⟩
      intro q hq
      rcases List.mem_append.mp hq with h' | h'
      · exact hq1 q h'
      · exact hq2 q h'

lemma qualifies_seed_iff (eps : ℚ) (peak q : Point) :
    qualifies eps peak peak.intensity q = true ↔
      ((peak.mz - eps ≤ q.mz ∧ q.mz ≤ peak.mz + eps) ∧
       (peak.rt - eps ≤ q.rt ∧ q.rt ≤ peak.rt + eps) ∧
       q.charge = peak.charge ∧ q.intensity < peak.intensity) := by
  simp only [qualifies, Bool.and_eq_true, decide_eq_true_eq]
  constructor
  · rintro ⟨⟨⟨⟨⟨⟨h1, h2⟩, h3⟩, h4⟩, -⟩, h6⟩, h7⟩
    exact ⟨⟨h1, h2⟩, ⟨h3, h4⟩, h6, h7⟩
  · rintro ⟨⟨h1, h2⟩, ⟨h3, h4⟩, h6, h7⟩
    exact ⟨⟨⟨⟨⟨⟨h1, h2⟩, h3⟩, h4⟩, le_of_lt h7⟩, h6⟩, h7⟩

/-- Claim C2 counterexample: on `fmC2` the single chain links, after the
seed of intensity 80, a point of intensity 30 and then one of intensity 50 —
every candidate is only compared against the *seed*, so the linked intensity
sequence read from the seed outward is `[80, 30, 50]`, which is not strictly
decreasing (50 is linked after 30 with 50 > 30). -/
theorem c2_counterexample :
    linkBetweenFrames fmC2 rtId =
      some [(0, ([1, 2, 3], [⟨100, 1, 80, 1⟩, ⟨100, 1, 30, 1⟩, ⟨100, 1, 50, 1⟩]))] ∧
    ¬ List.Chain' (fun a b : ℚ => b < a)
        ([⟨100, 1, 80, 1⟩, ⟨100, 1, 30, 1⟩, (⟨100, 1, 50, 1⟩ : Point)].map Point.intensity) := by
  constructor
  · norm_num [linkBetweenFrames, chainPhase, chainLoop, chainPass, linkToPeak, walkBack,
      walkForward, walkStep, firstIdx?, qualifies, findLocalMaximaIndices, argrelextremaGreater,
      maxInts, maxIntPtIdxs, maxIntensityEntry, maxIntensityAux, pointExtraction,
      leftoverKeys, singletonsOfFrame, leftoverSpecies, fmC2, rtId,
      List.range, List.range.loop, List.getD, List.eraseIdx, List.set]
  · intro hch
    rw [List.map_cons, List.map_cons, List.map_cons, List.map_nil] at hch
    have h2 := List.chain'_cons.mp (List.chain'_cons.mp hch).2
    have : ¬ ((50 : ℚ) < 30) := by norm_num
    exact this (by simpa using h2.1)

/-- Claim C2 (amended): every Point a `link_to_peak` walk links after the seed
has mz and rt within ε of the *seed's* mz and rt, charge equal to the *seed's*
charge, and intensity strictly smaller than the *seed's* intensity (the code
compares every candidate against the seed `peak`; `prev_val` is reset to the
seed's intensity at every frame, so no consecutive-decrease is enforced). -/
theorem c2_seed_relative (rt_idx pt_idx : ℕ) (frames : List (List Point)) (nl : List ℕ)
    (rtMap : ℕ → ℚ) (eps : ℚ) (fr' : List (List Point)) (nl' : List ℕ)
    (rts : List ℚ) (seed : Point) (rest : List Point)
    (h : linkToPeak rt_idx pt_idx frames nl rtMap eps =
      some (fr', nl', some (rts, seed :: rest))) :
    ∀ q ∈ rest,
      (seed.mz - eps ≤ q.mz ∧ q.mz ≤ seed.mz + eps) ∧
      (seed.rt - eps ≤ q.rt ∧ q.rt ≤ seed.rt + eps) ∧
      q.charge = seed.charge ∧ q.intensity < seed.intensity := by
  rw [linkToPeak] at h
  split at h
  next hpos =>
    split at h
    · cases h
    next peak hpk =>
      simp only [Option.some.injEq, Prod.mk.injEq] at h
      obtain ⟨-, -, hr, hp⟩ := h
      set st0 : WalkSt :=
        ⟨frames.set rt_idx ((frames.getD rt_idx []).eraseIdx pt_idx),
         nl.set rt_idx (nl.getD rt_idx 0 - 1),
         [rtMap rt_idx], [peak]⟩ with hst0def
      set st1 := if rt_idx = 0 then st0 else walkBack eps rtMap peak (rt_idx - 1) 0 st0
        with hst1def
      have hp1 : ∃ ext, st1.pts = [peak] ++ ext ∧
          ∀ q ∈ ext, qualifies eps peak peak.intensity q = true := by
        rw [hst1def]
        split
        · exact ⟨[], by simp, by simp⟩
        · exact walkBack_pts eps rtMap peak (rt_idx - 1) 0 st0
      obtain ⟨e1, he1, hq1⟩ := hp1
      obtain ⟨e2, he2, hq2⟩ := walkForward_pts eps rtMap peak
        (st1.frames.length - (rt_idx + 1)) (rt_idx + 1) 0 st1
      have hpts : seed :: rest = [peak] ++ (e1 ++ e2) := by
        rw [← hp, he2, he1, List.append_assoc]
      have hseed : seed = peak := by
        have := congrArg (fun l => l.getD 0 default) hpts
        simpa using this
      have hrest : rest = e1 ++ e2 := by
        have := congrArg List.tail hpts
        simpa using this
      subst hseed
      intro q hq
      rw [hrest] at hq
      rcases List.mem_append.mp hq with h' | h'
      · exact (qualifies_seed_iff eps seed q).mp (hq1 q h')
      · exact (qualifies_seed_iff eps seed q).mp (hq2 q h')
  next => cases h

/-- Claim C2 witness: the amended theorem applied to the `fmC2` chain, at the
linked point of intensity 50 (seed intensity 80). -/
theorem c2_witness :
    ((100 : ℚ) - 3 / 1000 ≤ 100 ∧ (100 : ℚ) ≤ 100 + 3 / 1000) ∧
    ((1 : ℚ) - 3 / 1000 ≤ 1 ∧ (1 : ℚ) ≤ 1 + 3 / 1000) ∧
    (1 : ℤ) = 1 ∧ (50 : ℚ) < 80 := by
  have happ := c2_seed_relative 1 0 fmC2 (fmC2.map List.length) rtId (3 / 1000)
    [[], [], [], [], []] [0, 0, 0, 0, 0] [1, 2, 3]
    ⟨100, 1, 80, 1⟩ [⟨100, 1, 30, 1⟩, ⟨100, 1, 50, 1⟩]
    (by
      norm_num [linkToPeak, walkBack, walkForward, walkStep, firstIdx?, qualifies,
        fmC2, rtId, List.getD, List.eraseIdx, List.set])
  exact happ ⟨100, 1, 50, 1⟩ (by simp)

/-! ## Claim C10 -/

/-- Claim C10 (refuted; code bug): on `fmC10` one selector pass yields the two
local maxima `(1, 0)` and `(3, 1)`.  The chain seeded at `(1, 0)` pops the
frame-3 point at index 0, leaving frame 3 with a single point, so when the
driver then invokes `link_to_peak` on `(3, 1)` the saved in-frame index 1 is
out of bounds and `pop(1)` raises `IndexError` — the popped-pair validity the
claim asserts does not hold, and the whole driver call crashes. -/
theorem c10_stale_index_crash :
    findLocalMaximaIndices fmC10 = [(1, 0), (3, 1)] ∧
    linkToPeak 1 0 fmC10 (fmC10.map List.length) rtId (3 / 1000) =
      some ([[], [], [], [⟨300, 7, 60, 1⟩], []], [0, 0, 0, 1, 0],
        some ([1, 2, 3], [⟨100, 1, 80, 1⟩, ⟨100, 1, 50, 1⟩, ⟨100, 1, 55, 1⟩])) ∧
    linkToPeak 3 1 [[], [], [], [⟨300, 7, 60, 1⟩], []] [0, 0, 0, 1, 0] rtId (3 / 1000) = none ∧
    linkBetweenFrames fmC10 rtId = none := by
  refine ⟨?_, ?_, ?_, ?_⟩
  · norm_num [findLocalMaximaIndices, argrelextremaGreater, maxInts, maxIntPtIdxs,
      maxIntensityEntry, maxIntensityAux, fmC10, List.range, List.range.loop, List.getD]
  · norm_num [linkToPeak, walkBack, walkForward, walkStep, firstIdx?, qualifies,
      fmC10, rtId, List.getD, List.eraseIdx, List.set]
  · norm_num [linkToPeak, List.getD]
  · norm_num [linkBetweenFrames, chainPhase, chainLoop, chainPass, linkToPeak, walkBack,
      walkForward, walkStep, firstIdx?, qualifies, findLocalMaximaIndices, argrelextremaGreater,
      maxInts, maxIntPtIdxs, maxIntensityEntry, maxIntensityAux, pointExtraction,
      leftoverKeys, singletonsOfFrame, leftoverSpecies, fmC10, rtId,
      List.range, List.range.loop, List.getD, List.eraseIdx, List.set]

/-! ## Claim C3 -/

/-- Claim C3 (refuted; code bug): the scan loop is
`for k in range(i + 1, len(rt_idx_to_points[i + 1:]))`, whose upper bound is
the *length of the slice* `N - (i+1)` instead of `N`.  With `N = 3` frames and
target frame `i = 0` only frame 1 is scanned (`range(1, 2)`), so the matching
point in the last frame (frame 2, which satisfies the match condition) is
never collected, although the claim requires every frame up to and including
the last one to be scanned. -/
theorem c3_scan_range_bug :
    scanRange 3 0 = [1] ∧
    precCond (3 / 1000) ⟨200.0, 5.0, 100, 2⟩ ⟨200.002, 5.001, 40, 2⟩ = true ∧
    searchThroughAllFrames [0] fmC3 (3 / 1000) =
      some ([(0, ([0], [⟨200.0, 5.0, 100, 2⟩]))], fmC3) := by
  refine ⟨?_, ?_, ?_⟩
  · rfl
  · norm_num [precCond]
  · norm_num [searchThroughAllFrames, searchAux, searchSeeds, scanLaterFrames,
      scanFramePoints, scanRange, precCond, pointExtraction, fmC3,
      List.range', List.getD]

/-! ## Claim C5 -/

/-- Claim C5 (refuted; code bug): the two-axis filter
`get_mz_and_dt_bounded_points_array` calls `get_points_array` twice.  On any
cloud holding at least one point the first call populates the `points_array`
cache, and the second call's guard `if not self.points_array` evaluates the
truth value of a multi-element numpy array and raises `ValueError`; on an
empty cloud the cached array is 1-D and the 2-D column selection
`pts[:, [0, 1]]` raises `IndexError`.  Either way no bounded point list is
ever returned — here shown on a one-point cloud whose point lies strictly
inside the bounds, and on the empty cloud. -/
theorem c5_cache_guard_crash :
    get_mz_and_dt_bounded_points_array exCloud5 (0, 0) (2, 2) = .error () ∧
    get_mz_and_dt_bounded_points_array ⟨[], []⟩ (0, 0) (2, 2) = .error () := by
  constructor
  · rfl
  · rfl

/-! ## Claim C9 -/

/-- Claim C9 counterexample: the three-axis filter bounds *all four* columns
of the points array (the numpy comparison broadcasts the bound vectors over
the whole `(n, 4)` array).  On a one-point cloud whose mz, dt and rt all lie
inside the bounds but whose intensity (100) exceeds the bound 50, the code
returns no rows, while the claim-side filter — which constrains only the
first three coordinates — keeps the row. -/
theorem c9_counterexample :
    get_mz_dt_and_rt_bounded_points_array exCloud9 (0, 0, 0, 0) (2, 2, 2, 50) =
      .ok ([], ⟨[⟨1, 1, 1, 100⟩], [[1, 1, 1, 100]]⟩) ∧
    threeAxisClaimFilter [[1, 1, 1, 100]] (0, 0, 0, 0) (2, 2, 2, 50) = [[1, 1, 1, 100]] := by
  constructor
  · norm_num [get_mz_dt_and_rt_bounded_points_array, get_points_array, npNot,
      MassSpecDataPoint.get_array, exCloud9, List.getD]
  · norm_num [threeAxisClaimFilter, List.getD]

lemma zip_map_filter {α : Type*} (p : α → Bool) :
    ∀ rows : List α,
      ((rows.zip (rows.map p)).filter (fun rb => rb.2)).map (fun rb => rb.1) = rows.filter p
  | [] => rfl
  | r :: rows => by
    simp only [List.map_cons, List.zip_cons_cons, List.filter_cons]
    by_cases hp : p r
    · rw [if_pos (by simpa using hp), if_pos hp, List.map_cons, zip_map_filter p rows]
    · rw [if_neg (by simpa using hp), if_neg (by simpa using hp), zip_map_filter p rows]

/-- Claim C9 (amended): on a cloud with a freshly initialised cache and at
least one point (with no point the numpy broadcast of the bound vector
against the 1-D empty array raises `ValueError`), the three-axis filter
returns exactly the rows of the points array whose mz, drift-time, rt *and
intensity* coordinates all lie within the inclusive component-wise bounds —
the same inclusive semantics as the two-axis filter, but extended to all four
columns, not to three. -/
theorem c9_four_axis (c : MassSpecDataPointCloud) (ll ur : ℚ × ℚ × ℚ × ℚ)
    (hfresh : c.points_array = []) (hne : c.data ≠ []) :
    get_mz_dt_and_rt_bounded_points_array c ll ur =
      .ok ((c.data.map MassSpecDataPoint.get_array).filter (fun r =>
          decide (ll.1 ≤ r.getD 0 0 ∧ r.getD 0 0 ≤ ur.1) &&
          decide (ll.2.1 ≤ r.getD 1 0 ∧ r.getD 1 0 ≤ ur.2.1) &&
          decide (ll.2.2.1 ≤ r.getD 2 0 ∧ r.getD 2 0 ≤ ur.2.2.1) &&
          decide (ll.2.2.2 ≤ r.getD 3 0 ∧ r.getD 3 0 ≤ ur.2.2.2)),
        ⟨c.data, c.data.map MassSpecDataPoint.get_array⟩) := by
  have hga : get_points_array c =
      .ok (c.data.map MassSpecDataPoint.get_array, ⟨c.data, c.data.map MassSpecDataPoint.get_array⟩) := by
    rw [get_points_array, hfresh]
    rfl
  rw [get_mz_dt_and_rt_bounded_points_array, hga]
  have hempty : (c.data.map MassSpecDataPoint.get_array).isEmpty = false := by
    cases hd : c.data with
    | nil => exact absurd hd hne
    | cons a as => simp
  dsimp only
  rw [if_neg (by simp [hempty]), zip_map_filter]

/-- Claim C9 witness: the amended theorem applied to the one-point cloud with
bounds that admit the point in all four coordinates. -/
theorem c9_witness :
    get_mz_dt_and_rt_bounded_points_array exCloud9 (0, 0, 0, 0) (2, 2, 2, 200) =
      .ok ((exCloud9.data.map MassSpecDataPoint.get_array).filter (fun r =>
          decide ((0 : ℚ) ≤ r.getD 0 0 ∧ r.getD 0 0 ≤ 2) &&
          decide ((0 : ℚ) ≤ r.getD 1 0 ∧ r.getD 1 0 ≤ 2) &&
          decide ((0 : ℚ) ≤ r.getD 2 0 ∧ r.getD 2 0 ≤ 2) &&
          decide ((0 : ℚ) ≤ r.getD 3 0 ∧ r.getD 3 0 ≤ 200)),
        ⟨exCloud9.data, exCloud9.data.map MassSpecDataPoint.get_array⟩) :=
  c9_four_axis exCloud9 (0, 0, 0, 0) (2, 2, 2, 200) rfl (by simp [exCloud9])

/-! ## Claim C6 -/

/-- Claim C6: `search_through_all_frames` is pure.  When a call returns, the
per-frame point lists it leaves behind are exactly the input lists (the code
only ever reads them), and invoking the search again on the frame data left by
the first call, with the same target set, returns the identical match-group
mapping and frame data. -/
theorem c6_search_pure (targets : List ℕ) (fm : List (List Point)) (eps : ℚ)
    (d : List (ℕ × MatchGroup)) (fm' : List (List Point))
    (h : searchThroughAllFrames targets fm eps = some (d, fm')) :
    fm' = fm ∧ searchThroughAllFrames targets fm' eps = some (d, fm') := by
  rw [searchThroughAllFrames, pointExtraction_id] at h
  cases haux : searchAux eps fm targets [] 0 with
  | none => rw [haux] at h; cases h
  | some d0 =>
    rw [haux] at h
    cases h
    refine ⟨rfl, ?_⟩
    rw [searchThroughAllFrames, pointExtraction_id, haux]

/-- Claim C6 witness: the purity theorem at a one-frame, one-target instance. -/
theorem c6_witness :
    fmC6 = fmC6 ∧
    searchThroughAllFrames [0] fmC6 (3 / 1000) =
      some ([(0, ([0], [⟨200.0, 5.0, 100, 2⟩]))], fmC6) :=
  c6_search_pure [0] fmC6 (3 / 1000) [(0, ([0], [⟨200.0, 5.0, 100, 2⟩]))] fmC6
    (by norm_num [searchThroughAllFrames, searchAux, searchSeeds, scanLaterFrames,
      scanFramePoints, scanRange, precCond, pointExtraction, fmC6,
      List.range', List.getD])

/-! ## Claim C7 -/

lemma getD_append_left {α : Type*} (l₁ l₂ : List α) {j : ℕ} (d : α) (h : j < l₁.length) :
    (l₁ ++ l₂).getD j d = l₁.getD j d := by
  rw [List.getD_eq_getElem?_getD, List.getD_eq_getElem?_getD, List.getElem?_append_left h]

lemma getD_append_length {α : Type*} (l₁ : List α) (p : α) (l₂ : List α) (d : α) :
    (l₁ ++ p :: l₂).getD l₁.length d = p := by
  rw [List.getD_eq_getElem?_getD, List.getElem?_append_right (Nat.le_refl _)]
  simp

lemma maxIntensityAux_snd :
    ∀ (rest : List Point) (i bi : ℕ) (bv : ℚ),
      (maxIntensityAux i (bi, bv) rest).2 = rest.foldl (fun a r => max a r.intensity) bv
  | [], i, bi, bv => rfl
  | p :: rs, i, bi, bv => by
    rw [maxIntensityAux, List.foldl_cons]
    by_cases hlt : bv < p.intensity
    · rw [if_pos hlt, maxIntensityAux_snd rs (i + 1) i p.intensity,
        max_eq_right (le_of_lt hlt)]
    · rw [if_neg hlt, maxIntensityAux_snd rs (i + 1) bi bv,
        max_eq_left (le_of_not_lt hlt)]

lemma maxIntensityAux_argmax :
    ∀ (rest processed : List Point) (bi : ℕ) (bv : ℚ),
      bi < processed.length →
      (processed.getD bi default).intensity = bv →
      (∀ j, j < processed.length → (processed.getD j default).intensity ≤ bv) →
      (∀ j, j < bi → (processed.getD j default).intensity < bv) →
      (maxIntensityAux processed.length (bi, bv) rest).1 < (processed ++ rest).length ∧
      ((processed ++ rest).getD (maxIntensityAux processed.length (bi, bv) rest).1
          default).intensity = (maxIntensityAux processed.length (bi, bv) rest).2 ∧
      (∀ j, j < (processed ++ rest).length →
        ((processed ++ rest).getD j default).intensity ≤
          (maxIntensityAux processed.length (bi, bv) rest).2) ∧
      (∀ j, j < (maxIntensityAux processed.length (bi, bv) rest).1 →
        ((processed ++ rest).getD j default).intensity <
          (maxIntensityAux processed.length (bi, bv) rest).2)
  | [], processed, bi, bv, hbi, hval, hle, hstrict => by
    rw [maxIntensityAux]
    simp only [List.append_nil]
    exact ⟨hbi, hval, hle, hstrict⟩
  | p :: rs, processed, bi, bv, hbi, hval, hle, hstrict => by
    rw [maxIntensityAux]
    have hassoc : processed ++ p :: rs = (processed ++ [p]) ++ rs := by
      rw [List.append_assoc]
      rfl
    have hlen : (processed ++ [p]).length = processed.length + 1 := by simp
    by_cases hlt : bv < p.intensity
    · rw [if_pos hlt]
      have ih := maxIntensityAux_argmax rs (processed ++ [p]) processed.length p.intensity
        (by omega)
        (by rw [getD_append_length])
        (by
          intro j hj
          rw [hlen] at hj
          rcases Nat.lt_or_ge j processed.length with hj' | hj'
          · rw [getD_append_left _ _ _ hj']
            exact le_of_lt (lt_of_le_of_lt (hle j hj') hlt)
          · have : j = processed.length := by omega
            rw [this, getD_append_length])
        (by
          intro j hj
          rw [getD_append_left _ _ _ hj]
          exact lt_of_le_of_lt (hle j hj) hlt)
      rw [hassoc]
      rw [hlen] at ih
      exact ih
    · rw [if_neg hlt]
      have hple : p.intensity ≤ bv := le_of_not_lt hlt
      have ih := maxIntensityAux_argmax rs (processed ++ [p]) bi bv
        (by omega)
        (by rw [getD_append_left _ _ _ hbi]; exact hval)
        (by
          intro j hj
          rw [hlen] at hj
          rcases Nat.lt_or_ge j processed.length with hj' | hj'
          · rw [getD_append_left _ _ _ hj']
            exact hle j hj'
          · have : j = processed.length := by omega
            rw [this, getD_append_length]
            exact hple)
        (by
          intro j hj
          rw [getD_append_left _ _ _ (Nat.lt_trans hj hbi)]
          exact hstrict j hj)
      rw [hassoc]
      rw [hlen] at ih
      exact ih

lemma maxIntensityEntry_snd (pts : List Point) :
    (maxIntensityEntry pts).2 = specFrameMax pts := by
  cases pts with
  | nil => rfl
  | cons p rest =>
    rw [maxIntensityEntry, specFrameMax]
    exact maxIntensityAux_snd rest 1 0 p.intensity

lemma maxIntensityEntry_argmax (pts : List Point) :
    IsFirstMaxIdx pts (maxIntensityEntry pts).1 := by
  cases pts with
  | nil => exact Or.inl ⟨rfl, rfl⟩
  | cons p rest =>
    rw [maxIntensityEntry]
    have h := maxIntensityAux_argmax rest [p] 0 p.intensity
      (by simp) (by simp) ?_ ?_
    · right
      obtain ⟨h1, h2, h3, h4⟩ := h
      refine ⟨by simpa using h1, ?_, ?_⟩
      · intro j hj
        have := h3 j (by simpa using hj)
        rw [← h2] at this
        simpa using this
      · intro j hj
        have := h4 j hj
        rw [← h2] at this
        simpa using this
    · intro j hj
      have : j = 0 := by simpa using hj
      simp [this]
    · intro j hj
      omega

lemma IsFirstMaxIdx_unique {pts : List Point} {p q : ℕ}
    (hp : IsFirstMaxIdx pts p) (hq : IsFirstMaxIdx pts q) : p = q := by
  rcases hp with ⟨hnil, hp0⟩ | ⟨hplen, hple, hpstrict⟩
  · rcases hq with ⟨-, hq0⟩ | ⟨hqlen, -, -⟩
    · rw [hp0, hq0]
    · rw [hnil] at hqlen
      simp at hqlen
  · rcases hq with ⟨hnil, -⟩ | ⟨hqlen, hqle, hqstrict⟩
    · rw [hnil] at hplen
      simp at hplen
    · rcases Nat.lt_trichotomy p q with hlt | heq | hgt
      · exact absurd (hqstrict p hlt) (not_lt.mpr (hple q hqlen))
      · exact heq
      · exact absurd (hpstrict q hgt) (not_lt.mpr (hqle p hplen))

lemma getD_map_specMax :
    ∀ (frames : List (List Point)) (k : ℕ), k < frames.length →
      (maxInts frames).getD k 0 = specFrameMax (frames.getD k [])
  | [], k, h => by simp at h
  | f :: fs, 0, _ => by
    rw [maxInts, List.map_cons, List.getD_cons_zero, List.getD_cons_zero,
      maxIntensityEntry_snd]
  | f :: fs, k + 1, h => by
    rw [maxInts, List.map_cons, List.getD_cons_succ, List.getD_cons_succ]
    exact getD_map_specMax fs k (by simpa using Nat.lt_of_succ_lt_succ h)

lemma getD_map_ptIdx :
    ∀ (frames : List (List Point)) (k : ℕ), k < frames.length →
      (maxIntPtIdxs frames).getD k 0 = (maxIntensityEntry (frames.getD k [])).1
  | [], k, h => by simp at h
  | f :: fs, 0, _ => by
    rw [maxIntPtIdxs, List.map_cons, List.getD_cons_zero, List.getD_cons_zero]
  | f :: fs, k + 1, h => by
    rw [maxIntPtIdxs, List.map_cons, List.getD_cons_succ, List.getD_cons_succ]
    exact getD_map_ptIdx fs k (by simpa using Nat.lt_of_succ_lt_succ h)

lemma getD_mem_of_lt {α : Type*} (l : List α) (d : α) :
    ∀ {k : ℕ}, k < l.length → l.getD k d ∈ l := by
  induction l with
  | nil => intro k h; simp at h
  | cons a as ih =>
    intro k h
    cases k with
    | zero => simp
    | succ k =>
      rw [List.getD_cons_succ]
      exact List.mem_cons_of_mem a (ih (by simpa using Nat.lt_of_succ_lt_succ h))

/-- Claim C7: `find_local_maxima_indices` yields exactly the pairs `(i, p)`
where `i` is an interior frame whose per-frame maximum intensity (0 for an
empty frame) strictly exceeds the maxima of both neighbouring frames, and `p`
is the in-frame index of the first most-intense point of frame `i`; the first
and last frames are never yielded, and if all frames are empty the result is
empty. -/
theorem c7_local_maxima (frames : List (List Point)) :
    (∀ i p, (i, p) ∈ findLocalMaximaIndices frames ↔
      (0 < i ∧ i + 1 < frames.length ∧
       specFrameMax (frames.getD (i - 1) []) < specFrameMax (frames.getD i []) ∧
       specFrameMax (frames.getD (i + 1) []) < specFrameMax (frames.getD i []) ∧
       IsFirstMaxIdx (frames.getD i []) p)) ∧
    ((∀ f ∈ frames, f = []) → findLocalMaximaIndices frames = []) := by
  have hlen : (maxInts frames).length = frames.length := by simp [maxInts]
  have hmain : ∀ i p, (i, p) ∈ findLocalMaximaIndices frames ↔
      (0 < i ∧ i + 1 < frames.length ∧
       specFrameMax (frames.getD (i - 1) []) < specFrameMax (frames.getD i []) ∧
       specFrameMax (frames.getD (i + 1) []) < specFrameMax (frames.getD i []) ∧
       IsFirstMaxIdx (frames.getD i []) p) := by
    intro i p
    constructor
    · intro hmem
      rw [findLocalMaximaIndices, List.mem_map] at hmem
      obtain ⟨a, ha, heq⟩ := hmem
      rw [Prod.mk.injEq] at heq
      obtain ⟨rfl, hp⟩ := heq
      rw [argrelextremaGreater, List.mem_filter, List.mem_range] at ha
      obtain ⟨hiN, hcond⟩ := ha
      rw [Bool.and_eq_true, decide_eq_true_eq, decide_eq_true_eq] at hcond
      obtain ⟨hc1, hc2⟩ := hcond
      rw [hlen] at hiN
      have h0 : 0 < a := by
        rcases Nat.eq_zero_or_pos a with rfl | h
        · exact absurd hc1 (lt_irrefl _)
        · exact h
      have h1 : a + 1 < frames.length := by
        by_contra h1
        have heq' : a = frames.length - 1 := by omega
        have hmin : min (a + 1) ((maxInts frames).length - 1) = a := by
          rw [hlen]; omega
        rw [hmin] at hc2
        exact absurd hc2 (lt_irrefl _)
      have hmin : min (a + 1) ((maxInts frames).length - 1) = a + 1 := by
        rw [hlen]; omega
      rw [hmin, getD_map_specMax frames (a + 1) h1, getD_map_specMax frames a hiN] at hc2
      rw [getD_map_specMax frames (a - 1) (by omega), getD_map_specMax frames a hiN] at hc1
      refine ⟨h0, h1, hc1, hc2, ?_⟩
      rw [← hp, getD_map_ptIdx frames a hiN]
      exact maxIntensityEntry_argmax _
    · rintro ⟨h0, h1, hc1, hc2, hfirst⟩
      have hiN : i < frames.length := by omega
      rw [findLocalMaximaIndices, List.mem_map]
      refine ⟨i, ?_, ?_⟩
      · rw [argrelextremaGreater, List.mem_filter, List.mem_range, hlen]
        refine ⟨hiN, ?_⟩
        rw [Bool.and_eq_true, decide_eq_true_eq, decide_eq_true_eq]
        constructor
        · rw [getD_map_specMax frames (i - 1) (by omega), getD_map_specMax frames i hiN]
          exact hc1
        · have hmin : min (i + 1) (frames.length - 1) = i + 1 := by omega
          rw [hmin, getD_map_specMax frames (i + 1) h1, getD_map_specMax frames i hiN]
          exact hc2
      · rw [Prod.mk.injEq]
        refine ⟨rfl, ?_⟩
        rw [getD_map_ptIdx frames i hiN]
        exact IsFirstMaxIdx_unique (maxIntensityEntry_argmax _) hfirst
  refine ⟨hmain, ?_⟩
  intro hall
  rw [List.eq_nil_iff_forall_not_mem]
  intro x hmem
  obtain ⟨i, p⟩ := x
  obtain ⟨h0, h1, hc1, -, -⟩ := (hmain i p).mp hmem
  have hgetD : ∀ k, frames.getD k [] = [] := by
    intro k
    rcases Nat.lt_or_ge k frames.length with hk | hk
    · exact hall _ (getD_mem_of_lt frames [] hk)
    · exact getD_of_length_le frames [] hk
  rw [hgetD (i - 1), hgetD i] at hc1
  exact absurd hc1 (lt_irrefl _)

/-- Claim C7 witness: on the scenario frames, `(1, 0)` is a local maximum. -/
theorem c7_witness : (1, 0) ∈ findLocalMaximaIndices exC8 := by
  refine ((c7_local_maxima exC8).1 1 0).mpr ⟨Nat.one_pos, ?_, ?_, ?_, ?_⟩
  · norm_num [exC8]
  · norm_num [exC8, specFrameMax, List.getD]
  · norm_num [exC8, specFrameMax, List.getD]
  · right
    refine ⟨by norm_num [exC8, List.getD], ?_, ?_⟩
    · intro j hj
      have hj1 : j = 0 := by
        have : (exC8.getD 1 []).length = 1 := by norm_num [exC8, List.getD]
        omega
      rw [hj1]
    · intro j hj
      omega

/-! ## Claim C4 -/

lemma walkStep_empty {eps : ℚ} {rtMap : ℕ → ℚ} {peak : Point} {w sk : ℕ} {st : WalkSt}
    (h : st.frames.getD w [] = []) :
    walkStep eps rtMap peak w sk st = .stop st := by
  simp only [walkStep]
  rw [h]
  simp

lemma walkForward_pts_mono (eps : ℚ) (rtMap : ℕ → ℚ) (peak : Point)
    (fuel w sk : ℕ) (st : WalkSt) :
    st.pts.length ≤ (walkForward eps rtMap peak fuel w sk st).pts.length := by
  obtain ⟨ext, hext, -⟩ := walkForward_pts eps rtMap peak fuel w sk st
  rw [hext]
  simp

lemma walkBack_pts_mono (eps : ℚ) (rtMap : ℕ → ℚ) (peak : Point)
    (w sk : ℕ) (st : WalkSt) :
    st.pts.length ≤ (walkBack eps rtMap peak w sk st).pts.length := by
  obtain ⟨ext, hext, -⟩ := walkBack_pts eps rtMap peak w sk st
  rw [hext]
  simp

lemma walkForward_untouched_below (eps : ℚ) (rtMap : ℕ → ℚ) (peak : Point) :
    ∀ (fuel w sk : ℕ) (st : WalkSt) (m : ℕ), m < w →
      (walkForward eps rtMap peak fuel w sk st).frames.getD m [] = st.frames.getD m [] := by
  intro fuel
  induction fuel with
  | zero => intro w sk st m _; rw [walkForward]
  | succ fuel ih =>
    intro w sk st m hm
    cases hws : walkStep eps rtMap peak w sk st with
    | stop st' => rw [walkForward, hws, walkStep_stop hws]
    | cont st' sk' =>
      rw [walkForward, hws]
      rw [ih (w + 1) sk' st' m (by omega)]
      rcases walkStep_cont hws with ⟨rfl, -, -⟩ | ⟨i, -, -, -, rfl, -⟩
      · rfl
      · exact getD_set_ne _ _ _ (by omega)

lemma walkBack_untouched_above (eps : ℚ) (rtMap : ℕ → ℚ) (peak : Point) :
    ∀ (w sk : ℕ) (st : WalkSt) (m : ℕ), w < m →
      (walkBack eps rtMap peak w sk st).frames.getD m [] = st.frames.getD m [] := by
  intro w
  induction w with
  | zero =>
    intro sk st m hm
    cases hws : walkStep eps rtMap peak 0 sk st with
    | stop st' => rw [walkBack, hws, walkStep_stop hws]
    | cont st' sk' =>
      rw [walkBack, hws]
      rcases walkStep_cont hws with ⟨rfl, -, -⟩ | ⟨i, -, -, -, rfl, -⟩
      · rfl
      · exact getD_set_ne _ _ _ (by omega)
  | succ w ih =>
    intro sk st m hm
    cases hws : walkStep eps rtMap peak (w + 1) sk st with
    | stop st' => rw [walkBack, hws, walkStep_stop hws]
    | cont st' sk' =>
      rw [walkBack, hws]
      rw [ih sk' st' m (by omega)]
      rcases walkStep_cont hws with ⟨rfl, -, -⟩ | ⟨i, -, -, -, rfl, -⟩
      · rfl
      · exact getD_set_ne _ _ _ (by omega)

lemma walkForward_empty_barrier (eps : ℚ) (rtMap : ℕ → ℚ) (peak : Point) :
    ∀ (fuel w sk : ℕ) (st : WalkSt) (j : ℕ), w ≤ j → st.frames.getD j [] = [] →
      ∀ m, j ≤ m →
        (walkForward eps rtMap peak fuel w sk st).frames.getD m [] = st.frames.getD m [] := by
  intro fuel
  induction fuel with
  | zero => intro w sk st j _ _ m _; rw [walkForward]
  | succ fuel ih =>
    intro w sk st j hwj hj m hjm
    rcases Nat.eq_or_lt_of_le hwj with rfl | hwj'
    · rw [walkForward, walkStep_empty hj]
    · cases hws : walkStep eps rtMap peak w sk st with
      | stop st' => rw [walkForward, hws, walkStep_stop hws]
      | cont st' sk' =>
        rw [walkForward, hws]
        rcases walkStep_cont hws with ⟨rfl, -, -⟩ | ⟨i, -, -, -, heq, -⟩
        · exact ih (w + 1) sk' st' j (by omega) hj m hjm
        · have hj' : st'.frames.getD j [] = [] := by
            rw [heq]
            show (st.frames.set w _).getD j [] = []
            rw [getD_set_ne _ _ _ (by omega)]
            exact hj
          rw [ih (w + 1) sk' st' j (by omega) hj' m hjm, heq]
          show (st.frames.set w _).getD m [] = st.frames.getD m []
          exact getD_set_ne _ _ _ (by omega)

lemma walkBack_empty_barrier (eps : ℚ) (rtMap : ℕ → ℚ) (peak : Point) :
    ∀ (w sk : ℕ) (st : WalkSt) (j : ℕ), j ≤ w → st.frames.getD j [] = [] →
      ∀ m, m ≤ j →
        (walkBack eps rtMap peak w sk st).frames.getD m [] = st.frames.getD m [] := by
  intro w
  induction w with
  | zero =>
    intro sk st j hj0 hj m hm
    have : j = 0 := by omega
    subst this
    rw [walkBack, walkStep_empty hj]
  | succ w ih =>
    intro sk st j hjw hj m hm
    rcases Nat.eq_or_lt_of_le hjw with rfl | hjw'
    · rw [walkBack, walkStep_empty hj]
    · cases hws : walkStep eps rtMap peak (w + 1) sk st with
      | stop st' => rw [walkBack, hws, walkStep_stop hws]
      | cont st' sk' =>
        rw [walkBack, hws]
        rcases walkStep_cont hws with ⟨rfl, -, -⟩ | ⟨i, -, -, -, heq, -⟩
        · exact ih sk' st' j (by omega) hj m hm
        · have hj' : st'.frames.getD j [] = [] := by
            rw [heq]
            show (st.frames.set (w + 1) _).getD j [] = []
            rw [getD_set_ne _ _ _ (by omega)]
            exact hj
          rw [ih sk' st' j (by omega) hj' m hm, heq]
          show (st.frames.set (w + 1) _).getD m [] = st.frames.getD m []
          exact getD_set_ne _ _ _ (by omega)

lemma walkForward_change_bound (eps : ℚ) (rtMap : ℕ → ℚ) (peak : Point) :
    ∀ (fuel w sk : ℕ) (st : WalkSt), sk ≤ 2 →
      ∀ m, (walkForward eps rtMap peak fuel w sk st).frames.getD m [] ≠ st.frames.getD m [] →
        w ≤ m ∧ m + sk + st.pts.length ≤
          w + (walkForward eps rtMap peak fuel w sk st).pts.length + 2 := by
  intro fuel
  induction fuel with
  | zero =>
    intro w sk st _ m hm
    rw [walkForward] at hm
    exact absurd rfl hm
  | succ fuel ih =>
    intro w sk st hsk m hm
    cases hws : walkStep eps rtMap peak w sk st with
    | stop st' =>
      rw [walkForward, hws, walkStep_stop hws] at hm ⊢
      dsimp only at hm ⊢
      exact absurd rfl hm
    | cont st' sk' =>
      rw [walkForward, hws] at hm ⊢
      dsimp only at hm ⊢
      rcases walkStep_cont hws with ⟨hst, hsk', hsk1⟩ | ⟨i, -, -, -, heq, hsk'⟩
      · rw [hst, hsk'] at hm ⊢
        obtain ⟨h1, h2⟩ := ih (w + 1) (sk + 1) st (by omega) m hm
        exact ⟨by omega, by omega⟩
      · have hlen' : st'.pts.length = st.pts.length + 1 := by
          rw [heq]
          simp
        rw [hsk'] at hm ⊢
        by_cases hch : (walkForward eps rtMap peak fuel (w + 1) sk st').frames.getD m [] =
            st'.frames.getD m []
        · have hmw : m = w := by
            by_contra hmw
            apply hm
            rw [hch, heq]
            show (st.frames.set w _).getD m [] = st.frames.getD m []
            exact getD_set_ne _ _ _ (fun hc => hmw hc.symm)
          subst hmw
          have hmono := walkForward_pts_mono eps rtMap peak fuel (m + 1) sk st'
          rw [hlen'] at hmono
          exact ⟨le_refl m, by omega⟩
        · obtain ⟨h1, h2⟩ := ih (w + 1) sk st' hsk m hch
          rw [hlen'] at h2
          exact ⟨by omega, by omega⟩

lemma walkBack_change_bound (eps : ℚ) (rtMap : ℕ → ℚ) (peak : Point) :
    ∀ (w sk : ℕ) (st : WalkSt), sk ≤ 2 →
      ∀ m, (walkBack eps rtMap peak w sk st).frames.getD m [] ≠ st.frames.getD m [] →
        m ≤ w ∧ w + sk + st.pts.length ≤
          m + (walkBack eps rtMap peak w sk st).pts.length + 2 := by
  intro w
  induction w with
  | zero =>
    intro sk st hsk m hm
    cases hws : walkStep eps rtMap peak 0 sk st with
    | stop st' =>
      rw [walkBack, hws, walkStep_stop hws] at hm ⊢
      dsimp only at hm ⊢
      exact absurd rfl hm
    | cont st' sk' =>
      rw [walkBack, hws] at hm ⊢
      dsimp only at hm ⊢
      rcases walkStep_cont hws with ⟨hst, -, -⟩ | ⟨i, -, -, -, heq, -⟩
      · rw [hst] at hm
        exact absurd rfl hm
      · have hmw : m = 0 := by
          by_contra hmw
          apply hm
          rw [heq]
          show (st.frames.set 0 _).getD m [] = st.frames.getD m []
          exact getD_set_ne _ _ _ (fun hc => hmw hc.symm)
        subst hmw
        have hlen' : st'.pts.length = st.pts.length + 1 := by
          rw [heq]
          simp
        exact ⟨le_refl 0, by omega⟩
  | succ w ih =>
    intro sk st hsk m hm
    cases hws : walkStep eps rtMap peak (w + 1) sk st with
    | stop st' =>
      rw [walkBack, hws, walkStep_stop hws] at hm ⊢
      dsimp only at hm ⊢
      exact absurd rfl hm
    | cont st' sk' =>
      rw [walkBack, hws] at hm ⊢
      dsimp only at hm ⊢
      rcases walkStep_cont hws with ⟨hst, hsk', hsk1⟩ | ⟨i, -, -, -, heq, hsk'⟩
      · rw [hst, hsk'] at hm ⊢
        obtain ⟨h1, h2⟩ := ih (sk + 1) st (by omega) m hm
        exact ⟨by omega, by omega⟩
      · have hlen' : st'.pts.length = st.pts.length + 1 := by
          rw [heq]
          simp
        rw [hsk'] at hm ⊢
        by_cases hch : (walkBack eps rtMap peak w sk st').frames.getD m [] =
            st'.frames.getD m []
        · have hmw : m = w + 1 := by
            by_contra hmw
            apply hm
            rw [hch, heq]
            show (st.frames.set (w + 1) _).getD m [] = st.frames.getD m []
            exact getD_set_ne _ _ _ (fun hc => hmw hc.symm)
          subst hmw
          have hmono := walkBack_pts_mono eps rtMap peak w sk st'
          rw [hlen'] at hmono
          exact ⟨le_refl _, by omega⟩
        · obtain ⟨h1, h2⟩ := ih sk st' hsk m hch
          rw [hlen'] at h2
          exact ⟨by omega, by omega⟩

/-- Claim C4 counterexample: on `fmC4`, the code's forward walk from the
frame-1 seed misses at frames 2 and 4, links at frames 3 and 5, and then the
single miss at frame 6 — the *third cumulative* miss, although only one frame
since the last link — terminates the walk, leaving the qualifying point of
frame 7 unlinked.  Under the claim's semantics (skip allowance reset on every
successful link, implemented verbatim by `linkToPeakClaimReset`) the walk
continues and links frame 7's point as well: the two disagree, so the claim
misdescribes the code. -/
theorem c4_counterexample :
    linkToPeak 1 0 fmC4 (fmC4.map List.length) rtId (3 / 1000) =
      some ([[], [], [⟨200, 9, 10, 1⟩], [], [⟨200, 9, 10, 1⟩], [], [⟨200, 9, 10, 1⟩],
          [⟨100, 1, 50, 1⟩]],
        [0, 0, 1, 0, 1, 0, 1, 1],
        some ([1, 3, 5], [⟨100, 1, 80, 1⟩, ⟨100, 1, 70, 1⟩, ⟨100, 1, 60, 1⟩])) ∧
    linkToPeakClaimReset 1 0 fmC4 (fmC4.map List.length) rtId (3 / 1000) =
      some ([[], [], [⟨200, 9, 10, 1⟩], [], [⟨200, 9, 10, 1⟩], [], [⟨200, 9, 10, 1⟩], []],
        [0, 0, 1, 0, 1, 0, 1, 0],
        some ([1, 3, 5, 7],
          [⟨100, 1, 80, 1⟩, ⟨100, 1, 70, 1⟩, ⟨100, 1, 60, 1⟩, ⟨100, 1, 50, 1⟩])) ∧
    qualifies (3 / 1000) ⟨100, 1, 80, 1⟩ ((80 : ℚ)) ⟨100, 1, 50, 1⟩ = true := by
  refine ⟨?_, ?_, ?_⟩
  · norm_num [linkToPeak, walkBack, walkForward, walkStep, firstIdx?, qualifies,
      fmC4, rtId, List.getD, List.eraseIdx, List.set]
  · norm_num [linkToPeakClaimReset, walkBackClaimReset, walkForwardClaimReset,
      walkStepClaimReset, firstIdx?, qualifies, fmC4, rtId, List.getD, List.eraseIdx, List.set]
  · norm_num [qualifies]

/-- Claim C4 (amended): in each direction the walk's skip allowance is
*cumulative for the whole walk and never reset* — it terminates once more than
2 frames of that direction failed to yield a qualifying point, or immediately
upon reaching a completely empty frame.  Observable consequences proved here:
(i) no frame at or beyond a completely empty frame (in either direction from
the seed) is ever modified, and (ii) every modified frame lies within
`pts.length + 2` of the seed frame, where `pts` is the produced species'
point list (at most 2 skips can ever precede a link in a direction). -/
theorem c4_skip_semantics (rt_idx pt_idx : ℕ) (frames : List (List Point)) (nl : List ℕ)
    (rtMap : ℕ → ℚ) (eps : ℚ) (fr' : List (List Point)) (nl' : List ℕ)
    (rts : List ℚ) (pts : List Point)
    (h : linkToPeak rt_idx pt_idx frames nl rtMap eps = some (fr', nl', some (rts, pts))) :
    (∀ j, rt_idx < j → frames.getD j [] = [] →
      ∀ m, j ≤ m → fr'.getD m [] = frames.getD m []) ∧
    (∀ j, j < rt_idx → frames.getD j [] = [] →
      ∀ m, m ≤ j → fr'.getD m [] = frames.getD m []) ∧
    (∀ m, fr'.getD m [] ≠ frames.getD m [] →
      rt_idx ≤ m + pts.length + 2 ∧ m ≤ rt_idx + pts.length + 2) := by
  rw [linkToPeak] at h
  split at h
  next hpos =>
    split at h
    · cases h
    next peak hpk =>
      simp only [Option.some.injEq, Prod.mk.injEq] at h
      obtain ⟨hfr, -, -, hpts⟩ := h
      set st0 : WalkSt :=
        ⟨frames.set rt_idx ((frames.getD rt_idx []).eraseIdx pt_idx),
         nl.set rt_idx (nl.getD rt_idx 0 - 1),
         [rtMap rt_idx], [peak]⟩ with hst0def
      set st1 := if rt_idx = 0 then st0 else walkBack eps rtMap peak (rt_idx - 1) 0 st0
        with hst1def
      set st2 := walkForward eps rtMap peak (st1.frames.length - (rt_idx + 1))
        (rt_idx + 1) 0 st1 with hst2def
      have hne0 : ∀ m, m ≠ rt_idx → st0.frames.getD m [] = frames.getD m [] := by
        intro m hm
        show (frames.set rt_idx _).getD m [] = frames.getD m []
        exact getD_set_ne _ _ _ (fun hc => hm hc.symm)
      have hst0pts : st0.pts = [peak] := by rw [hst0def]
      have hst1len : 1 ≤ st1.pts.length := by
        rw [hst1def]
        split
        · rw [hst0pts]
          simp
        · have := walkBack_pts_mono eps rtMap peak (rt_idx - 1) 0 st0
          rw [hst0pts] at this
          simpa using this
      refine ⟨?_, ?_, ?_⟩
      · intro j hj hjempty m hm
        have h0j : st0.frames.getD j [] = [] := by
          rw [hne0 j (by omega)]
          exact hjempty
        have h1eq : ∀ m', j ≤ m' → st1.frames.getD m' [] = st0.frames.getD m' [] := by
          intro m' hm'
          rw [hst1def]
          split
          · rfl
          · exact walkBack_untouched_above eps rtMap peak (rt_idx - 1) 0 st0 m' (by omega)
        have h1j : st1.frames.getD j [] = [] := by rw [h1eq j (le_refl j)]; exact h0j
        have h2eq := walkForward_empty_barrier eps rtMap peak
          (st1.frames.length - (rt_idx + 1)) (rt_idx + 1) 0 st1 j (by omega) h1j m hm
        rw [← hfr]
        rw [← hst2def] at h2eq
        rw [h2eq, h1eq m hm, hne0 m (by omega)]
      · intro j hj hjempty m hm
        have hrt0 : rt_idx ≠ 0 := by omega
        have h0j : st0.frames.getD j [] = [] := by
          rw [hne0 j (by omega)]
          exact hjempty
        have h1eq : ∀ m', m' ≤ j → st1.frames.getD m' [] = st0.frames.getD m' [] := by
          intro m' hm'
          rw [hst1def, if_neg hrt0]
          exact walkBack_empty_barrier eps rtMap peak (rt_idx - 1) 0 st0 j (by omega) h0j m' hm'
        have h2eq := walkForward_untouched_below eps rtMap peak
          (st1.frames.length - (rt_idx + 1)) (rt_idx + 1) 0 st1 m (by omega)
        rw [← hfr]
        rw [← hst2def] at h2eq
        rw [h2eq, h1eq m hm, hne0 m (by omega)]
      · intro m hm
        rw [← hfr] at hm
        rw [← hpts]
        by_cases hmrt : m = rt_idx
        · subst hmrt
          omega
        · have hch0 : st2.frames.getD m [] ≠ st0.frames.getD m [] := by
            rw [hne0 m hmrt]
            exact hm
          have h12mono : st1.pts.length ≤ st2.pts.length := by
            rw [hst2def]
            exact walkForward_pts_mono eps rtMap peak _ _ _ _
          by_cases hch : st2.frames.getD m [] = st1.frames.getD m []
          · have hch1 : st1.frames.getD m [] ≠ st0.frames.getD m [] := by
              rw [← hch]
              exact hch0
            have hrt0 : rt_idx ≠ 0 := by
              intro hc
              apply hch1
              rw [hst1def, if_pos hc]
            rw [hst1def, if_neg hrt0] at hch1
            obtain ⟨hb1, hb2⟩ := walkBack_change_bound eps rtMap peak (rt_idx - 1) 0 st0
              (by omega) m hch1
            rw [hst0pts] at hb2
            simp only [List.length_singleton] at hb2
            rw [hst1def, if_neg hrt0] at h12mono hst1len
            constructor
            · omega
            · omega
          · rw [hst2def] at hch
            obtain ⟨hb1, hb2⟩ := walkForward_change_bound eps rtMap peak
              (st1.frames.length - (rt_idx + 1)) (rt_idx + 1) 0 st1 (by omega) m hch
            rw [← hst2def] at hb2
            constructor
            · omega
            · omega
  next => cases h

/-- Claim C4 witness: the amended theorem at the `fmC4` instance; the empty
frame 0 lies backward of the seed frame 1, so frame 0 is left unmodified. -/
theorem c4_witness :
    ([[], [], [⟨200, 9, 10, 1⟩], [], [⟨200, 9, 10, 1⟩], [], [⟨200, 9, 10, 1⟩],
        [(⟨100, 1, 50, 1⟩ : Point)]] : List (List Point)).getD 0 [] = fmC4.getD 0 [] :=
  (c4_skip_semantics 1 0 fmC4 (fmC4.map List.length) rtId (3 / 1000)
    [[], [], [⟨200, 9, 10, 1⟩], [], [⟨200, 9, 10, 1⟩], [], [⟨200, 9, 10, 1⟩],
      [⟨100, 1, 50, 1⟩]]
    [0, 0, 1, 0, 1, 0, 1, 1] [1, 3, 5]
    [⟨100, 1, 80, 1⟩, ⟨100, 1, 70, 1⟩, ⟨100, 1, 60, 1⟩]
    (by
      norm_num [linkToPeak, walkBack, walkForward, walkStep, firstIdx?, qualifies,
        fmC4, rtId, List.getD, List.eraseIdx, List.set])).2.1
    0 (by omega) (by rw [fmC4]; rfl) 0 (le_refl 0)

end FragToPre
